import Mathlib

/-!
# Shopping cart of `script.js`

A shallow embedding of the cart script: the cart held in `shoppingCart`, the
value kept under the storage key `shoppingCart`, the page's mount points and
the global `grandTotal`, with the script's functions as state transformers.

The browser built-ins the script calls (`JSON.stringify`, `JSON.parse`,
`localStorage`, `document.getElementById`, `Math.round`, `alert`, `Razorpay`)
are not part of the script; they are modelled here after their documented
behaviour. JavaScript numbers are idealised as exact finite decimals (no
rounding to binary floating point), strings as sequences of Unicode scalar
values.
-/

namespace AmiozWorld

/-! ## Numbers -/

/-- Finite decimal number `mant / 10 ^ scale` in lowest decimal form (a positive
`scale` comes with a last decimal digit that is not zero), the model of a
JavaScript number. -/
structure Decimal where
  mant : Int
  scale : Nat
  norm : scale = 0 ∨ mant % 10 ≠ 0

/-- Whole number as a decimal. -/
def Decimal.ofInt (n : Int) : Decimal := ⟨n, 0, Or.inl rfl⟩

/-- Numeric value of a decimal. -/
def Decimal.toRat (d : Decimal) : ℚ := (d.mant : ℚ) / (10 : ℚ) ^ d.scale

/-- The decimal `m / 10 ^ k`, trailing zero digits of the fraction removed. -/
def Decimal.normalize : Int → Nat → Decimal
  | m, 0 => ⟨m, 0, Or.inl rfl⟩
  | m, k + 1 => if h : m % 10 = 0 then Decimal.normalize (m / 10) k else ⟨m, k + 1, Or.inr h⟩

/-- The decimal `m * 10 ^ (e - k)`: mantissa `m` read with `k` fraction digits
and decimal exponent `e`. -/
def Decimal.scaled (m : Int) (k : Nat) (e : Int) : Decimal :=
  if 0 ≤ e then
    if k ≤ e.toNat then Decimal.ofInt (m * 10 ^ (e.toNat - k))
    else Decimal.normalize m (k - e.toNat)
  else Decimal.normalize m (k + e.natAbs)

/-- Result of `Math.round`: the nearest integer, halves rounded up. -/
def Math.round (x : ℚ) : Int := ⌊x + 1 / 2⌋

/-! ## JSON values and JSON text -/

/-- Values that `JSON.parse` produces and `JSON.stringify` consumes. The members
of an object are kept as a list in source order (a repeated key is not
merged). -/
inductive JsValue where
  | null : JsValue
  | bool (b : Bool) : JsValue
  | num (d : Decimal) : JsValue
  | str (s : String) : JsValue
  | arr (vs : List JsValue) : JsValue
  | obj (ms : List (String × JsValue)) : JsValue

/-- JavaScript truthiness (`ToBoolean`), as used by the `||` operator. -/
def JsValue.truthy : JsValue → Bool
  | .null => false
  | .bool b => b
  | .num d => decide (d.mant ≠ 0)
  | .str s => decide (s.data ≠ [])
  | .arr _ => true
  | .obj _ => true

/-- The double quote character. -/
def quote : Char := Char.ofNat 34

/-- The reverse solidus character. -/
def backslash : Char := Char.ofNat 92

/-- The opening curly bracket. -/
def lbrace : Char := Char.ofNat 123

/-- The closing curly bracket. -/
def rbrace : Char := Char.ofNat 125

/-- Decimal digit test. -/
def isDigit (c : Char) : Bool := decide (48 ≤ c.toNat) && decide (c.toNat ≤ 57)

/-- Value of a decimal digit character. -/
def digitVal (c : Char) : Nat := c.toNat - 48

/-- Character of a decimal digit. -/
def digitChar (d : Nat) : Char := Char.ofNat (48 + d)

/-- Lower-case hexadecimal digit of a number below 16. -/
def hexDigit (n : Nat) : Char := if n < 10 then Char.ofNat (48 + n) else Char.ofNat (87 + n)

/-- Value of a hexadecimal digit character, either case. -/
def hexVal (c : Char) : Option Nat :=
  if 48 ≤ c.toNat ∧ c.toNat ≤ 57 then some (c.toNat - 48)
  else if 97 ≤ c.toNat ∧ c.toNat ≤ 102 then some (c.toNat - 87)
  else if 65 ≤ c.toNat ∧ c.toNat ≤ 70 then some (c.toNat - 55)
  else none

/-- Digits of a number, most significant first, built right to left. -/
def digitsAux : Nat → Nat → List Char → List Char
  | 0, _, acc => acc
  | fuel + 1, n, acc =>
    if n < 10 then digitChar n :: acc
    else digitsAux fuel (n / 10) (digitChar (n % 10) :: acc)

/-- Decimal digits of a natural number, without leading zeros (`0` gives one
digit). -/
def natDigits (n : Nat) : List Char := digitsAux (n + 1) n []

/-- Text of the number `n / 10 ^ k`: the digits of `n` with a decimal point
before the last `k` of them, zeros put in front when there are too few. -/
def numberBody (n k : Nat) : List Char :=
  if k = 0 then natDigits n
  else if k < (natDigits n).length then
    (natDigits n).take ((natDigits n).length - k) ++ '.' :: (natDigits n).drop ((natDigits n).length - k)
  else '0' :: '.' :: (List.replicate (k - (natDigits n).length) '0' ++ natDigits n)

/-- Text of a number as `JSON.stringify` writes it: optional minus sign, integer
part, and a fraction part when the number is not whole. The text is always
positional; the exponent form that JavaScript switches to for very large and
very small magnitudes is not modelled (`JSON.parse` reads both forms). -/
def numberText (d : Decimal) : List Char :=
  if d.mant < 0 then '-' :: numberBody d.mant.natAbs d.scale
  else numberBody d.mant.natAbs d.scale

/-- Escaped form of one character inside a JSON string literal
(`QuoteJSONString`). -/
def escapeChar (c : Char) : List Char :=
  if c = quote then [backslash, quote]
  else if c = backslash then [backslash, backslash]
  else if c = Char.ofNat 8 then [backslash, 'b']
  else if c = Char.ofNat 12 then [backslash, 'f']
  else if c = Char.ofNat 10 then [backslash, 'n']
  else if c = Char.ofNat 13 then [backslash, 'r']
  else if c = Char.ofNat 9 then [backslash, 't']
  else if c.toNat < 32 then
    [backslash, 'u', '0', '0', hexDigit (c.toNat / 16), hexDigit (c.toNat % 16)]
  else [c]

/-- Characters of a string with every character escaped as needed. -/
def escapeChars : List Char → List Char
  | [] => []
  | c :: cs => escapeChar c ++ escapeChars cs

/-- JSON string literal for a string. -/
def stringText (s : String) : List Char := quote :: (escapeChars s.data ++ [quote])

mutual
/-- Text of a value as `JSON.stringify` writes it (no white space). -/
def stringifyValue : JsValue → List Char
  | .null => ['n', 'u', 'l', 'l']
  | .bool true => ['t', 'r', 'u', 'e']
  | .bool false => ['f', 'a', 'l', 's', 'e']
  | .num d => numberText d
  | .str s => stringText s
  | .arr vs => '[' :: (stringifyElems vs ++ [']'])
  | .obj ms => lbrace :: (stringifyMembers ms ++ [rbrace])
/-- Comma-separated texts of the elements of an array. -/
def stringifyElems : List JsValue → List Char
  | [] => []
  | [v] => stringifyValue v
  | v :: w :: vs => stringifyValue v ++ ',' :: stringifyElems (w :: vs)
/-- Comma-separated texts of the members of an object. -/
def stringifyMembers : List (String × JsValue) → List Char
  | [] => []
  | [(k, v)] => stringText k ++ ':' :: stringifyValue v
  | (k, v) :: m :: ms => stringText k ++ ':' :: (stringifyValue v ++ ',' :: stringifyMembers (m :: ms))
end

/-- The built-in `JSON.stringify`. -/
def JSON.stringify (v : JsValue) : String := String.mk (stringifyValue v)

/-- JSON white space test. -/
def isWs (c : Char) : Bool :=
  decide (c = ' ') || decide (c = Char.ofNat 9) || decide (c = Char.ofNat 10) || decide (c = Char.ofNat 13)

/-- Drop leading JSON white space. -/
def skipWs : List Char → List Char
  | [] => []
  | c :: cs => if isWs c then skipWs cs else c :: cs

/-- Character named by a single-character escape. -/
def unescape (e : Char) : Option Char :=
  if e = quote then some quote
  else if e = backslash then some backslash
  else if e = '/' then some '/'
  else if e = 'b' then some (Char.ofNat 8)
  else if e = 'f' then some (Char.ofNat 12)
  else if e = 'n' then some (Char.ofNat 10)
  else if e = 'r' then some (Char.ofNat 13)
  else if e = 't' then some (Char.ofNat 9)
  else none

/-- Read a JSON string literal after its opening quote: the characters of the
string and the text after the closing quote. A four-digit hexadecimal escape
that names a surrogate code unit, which is no character here, reads as the null
character. -/
def parseString : List Char → Option (List Char × List Char)
  | [] => none
  | c :: r =>
    if c = quote then some ([], r)
    else if c = backslash then
      match r with
      | [] => none
      | e :: r1 =>
        if e = 'u' then
          match r1 with
          | a :: b :: x :: y :: r2 =>
            match hexVal a, hexVal b, hexVal x, hexVal y with
            | some h1, some h2, some h3, some h4 =>
              (parseString r2).map
                (fun p => (Char.ofNat (((h1 * 16 + h2) * 16 + h3) * 16 + h4) :: p.1, p.2))
            | _, _, _, _ => none
          | _ => none
        else
          match unescape e with
          | some d => (parseString r1).map (fun p => (d :: p.1, p.2))
          | none => none
    else if c.toNat < 32 then none
    else (parseString r).map (fun p => (c :: p.1, p.2))

/-- Read decimal digits: the accumulated value, the number of digits read and
the remaining text. -/
def readDigits : List Char → Nat → Nat → Nat × Nat × List Char
  | [], acc, cnt => (acc, cnt, [])
  | c :: cs, acc, cnt =>
    if isDigit c then readDigits cs (acc * 10 + digitVal c) (cnt + 1) else (acc, cnt, c :: cs)

/-- Integer part of a JSON number: `0`, or a digit other than zero followed by
digits. -/
def readInt : List Char → Option (Nat × List Char)
  | [] => none
  | c :: cs =>
    if c = '0' then some (0, cs)
    else if isDigit c then
      let r := readDigits cs (digitVal c) 0
      some (r.1, r.2.2)
    else none

/-- Optional fraction part of a JSON number after an integer part of value `n`:
the mantissa, the number of fraction digits and the remaining text. -/
def readFrac (n : Nat) : List Char → Option (Nat × Nat × List Char)
  | [] => some (n, 0, [])
  | c :: cs =>
    if c = '.' then
      match cs with
      | [] => none
      | d :: ds => if isDigit d then some (readDigits (d :: ds) n 0) else none
    else some (n, 0, c :: cs)

/-- Digits of an exponent, at least one. -/
def readExpDigits : List Char → Option (Nat × List Char)
  | [] => none
  | d :: ds =>
    if isDigit d then
      let r := readDigits (d :: ds) 0 0
      some (r.1, r.2.2)
    else none

/-- Optional exponent part of a JSON number. -/
def readExp : List Char → Option (Int × List Char)
  | [] => some (0, [])
  | c :: cs =>
    if c = 'e' ∨ c = 'E' then
      match cs with
      | [] => none
      | s :: ds =>
        if s = '+' then (readExpDigits ds).map (fun p => ((p.1 : Int), p.2))
        else if s = '-' then (readExpDigits ds).map (fun p => (-(p.1 : Int), p.2))
        else (readExpDigits (s :: ds)).map (fun p => ((p.1 : Int), p.2))
    else some (0, c :: cs)

/-- Unsigned JSON number with the given sign applied. -/
def readUnsigned (neg : Bool) (cs : List Char) : Option (Decimal × List Char) :=
  match readInt cs with
  | none => none
  | some (n, r) =>
    match readFrac n r with
    | none => none
    | some (m, k, r1) =>
      match readExp r1 with
      | none => none
      | some (e, r2) => some (Decimal.scaled (if neg then -(m : Int) else (m : Int)) k e, r2)

/-- Read a JSON number. -/
def parseNumber : List Char → Option (Decimal × List Char)
  | [] => none
  | c :: cs => if c = '-' then readUnsigned true cs else readUnsigned false (c :: cs)

/-- Read one of the literal names `null`, `true`, `false`. -/
def parseLiteral : List Char → Option (JsValue × List Char)
  | 'n' :: 'u' :: 'l' :: 'l' :: r => some (.null, r)
  | 't' :: 'r' :: 'u' :: 'e' :: r => some (.bool true, r)
  | 'f' :: 'a' :: 'l' :: 's' :: 'e' :: r => some (.bool false, r)
  | _ => none

mutual
/-- Read one JSON value at the head of the text (no leading white space); the
first argument bounds the number of nested calls. -/
def parseValue : Nat → List Char → Option (JsValue × List Char)
  | 0, _ => none
  | _ + 1, [] => none
  | fuel + 1, c :: r =>
    if c = quote then (parseString r).map (fun p => (JsValue.str (String.mk p.1), p.2))
    else if c = '-' ∨ isDigit c = true then
      (parseNumber (c :: r)).map (fun p => (JsValue.num p.1, p.2))
    else if c = '[' then
      match skipWs r with
      | [] => none
      | d :: r1 =>
        if d = ']' then some (JsValue.arr [], r1)
        else (parseElems fuel (d :: r1)).map (fun p => (JsValue.arr p.1, p.2))
    else if c = lbrace then
      match skipWs r with
      | [] => none
      | d :: r1 =>
        if d = rbrace then some (JsValue.obj [], r1)
        else (parseMembers fuel (d :: r1)).map (fun p => (JsValue.obj p.1, p.2))
    else parseLiteral (c :: r)
/-- Read the elements of an array up to and including the closing bracket. -/
def parseElems : Nat → List Char → Option (List JsValue × List Char)
  | 0, _ => none
  | fuel + 1, cs =>
    match parseValue fuel cs with
    | none => none
    | some (v, r) =>
      match skipWs r with
      | [] => none
      | d :: r1 =>
        if d = ',' then (parseElems fuel (skipWs r1)).map (fun p => (v :: p.1, p.2))
        else if d = ']' then some ([v], r1)
        else none
/-- Read the members of an object up to and including the closing bracket. -/
def parseMembers : Nat → List Char → Option (List (String × JsValue) × List Char)
  | 0, _ => none
  | _ + 1, [] => none
  | fuel + 1, c :: r =>
    if c = quote then
      match parseString r with
      | none => none
      | some (k, r1) =>
        match skipWs r1 with
        | [] => none
        | d :: r2 =>
          if d = ':' then
            match parseValue fuel (skipWs r2) with
            | none => none
            | some (v, r3) =>
              match skipWs r3 with
              | [] => none
              | e :: r4 =>
                if e = ',' then
                  (parseMembers fuel (skipWs r4)).map (fun p => ((String.mk k, v) :: p.1, p.2))
                else if e = rbrace then some ([(String.mk k, v)], r4)
                else none
          else none
    else none
end

/-- The error that `JSON.parse` raises. -/
inductive JsError where
  | syntaxError : JsError
deriving DecidableEq

/-- The built-in `JSON.parse`: the value the text denotes, or a `SyntaxError`
when the text is not one JSON value surrounded by optional white space. Every
nested call of the reader follows at least one consumed character, so the
length of the text bounds the nesting (`parse_of_fuel`). -/
def JSON.parse (text : String) : Except JsError JsValue :=
  match parseValue (text.data.length + 1) (skipWs text.data) with
  | none => .error .syntaxError
  | some (v, r) => if skipWs r = [] then .ok v else .error .syntaxError

/-! ## Cart state -/

/-- One line of the cart: the record `{id, name, price, quantity}`. -/
structure LineItem where
  id : String
  name : String
  price : Decimal
  quantity : Int

/-- One rendered row of the checkout list. -/
structure CartRow where
  id : String
  name : String
  lineTotal : ℚ
  quantity : Int

/-- The mount points of the page, `none` when the page has no such element.
A summary element holds the amount it shows (the two-decimal formatting of
`toFixed(2)` is not modelled), the list container its rows (no row: the
empty-cart message), the checkout button its `disabled` flag. -/
structure Dom where
  cartCount : Option Int
  cartItemsContainer : Option (List CartRow)
  checkoutButton : Option Bool
  cartSubtotal : Option ℚ
  cartShipping : Option ℚ
  cartTotal : Option ℚ

/-- The state the script works on: its two globals, the value stored under the
key `shoppingCart`, the page, the current location and the alerts shown. -/
structure State where
  shoppingCart : List LineItem
  grandTotal : ℚ
  localStorage : Option String
  dom : Dom
  href : String
  alerts : List String

/-- State after a call, and its result: `none` when the call raised a
`TypeError` (the state changes made before the error stay). -/
structure Outcome (α : Type) where
  state : State
  result : Option α

/-- The configured shipping fee, in rupees. -/
def SHIPPING_COST : ℚ := 50

/-- The payment key. -/
def RAZORPAY_KEY : String := "rzp_test_rYq68244K8jR"

/-- The configuration object handed to the payment widget (the fields the
widget is invoked with; display metadata left out). -/
structure RazorpayOptions where
  key : String
  amount : Int
  currency : String

/-- The cart record as a JSON value. -/
def LineItem.toJs (item : LineItem) : JsValue :=
  .obj [("id", .str item.id), ("name", .str item.name), ("price", .num item.price),
    ("quantity", .num (Decimal.ofInt item.quantity))]

/-- The cart array as a JSON value. -/
def cartToJs (cart : List LineItem) : JsValue := .arr (cart.map LineItem.toJs)

/-- Start-up load, `JSON.parse(localStorage.getItem('shoppingCart')) || []`: an
absent key reads as `null`, whose text is `null`; a falsy value gives the empty
array; a `SyntaxError` of `JSON.parse` is not caught. -/
def loadCart (stored : Option String) : Except JsError JsValue :=
  match JSON.parse (stored.getD "null") with
  | .error e => .error e
  | .ok v => .ok (if v.truthy then v else .arr [])

/-- The function `saveCart`. -/
def saveCart (s : State) : State :=
  { s with localStorage := some (JSON.stringify (cartToJs s.shoppingCart)) }

/-- The function `updateCartCount`. -/
def updateCartCount (s : State) : State :=
  match s.dom.cartCount with
  | none => s
  | some _ =>
    let totalItems := s.shoppingCart.foldl (fun total item => total + item.quantity) 0
    { s with dom := { s.dom with cartCount := some totalItems } }

/-- In-place update `item.quantity += delta` of the item that
`find(item => item.id === id)` returns, the first one with that id. -/
def addToFound (id : String) (delta : Int) : List LineItem → List LineItem
  | [] => []
  | item :: rest =>
    if item.id == id then { item with quantity := item.quantity + delta } :: rest
    else item :: addToFound id delta rest

/-- The function `addToCart`. -/
def addToCart (s : State) (id name : String) (price : Decimal) : State :=
  let s1 :=
    match s.shoppingCart.find? (fun item => item.id == id) with
    | some _ => { s with shoppingCart := addToFound id 1 s.shoppingCart }
    | none =>
      { s with shoppingCart :=
          s.shoppingCart ++ [{ id := id, name := name, price := price, quantity := 1 }] }
  let s2 := saveCart s1
  let s3 := updateCartCount s2
  { s3 with href := "checkout.html" }

/-- The value of the local `subtotal` of `updateCartTotals`: the `reduce` over
the cart. -/
def subtotalOf (cart : List LineItem) : ℚ :=
  cart.foldl (fun sum item => sum + item.price.toRat * (item.quantity : ℚ)) 0

/-- The value of the local `shipping` of `updateCartTotals` for a subtotal: free
above 1000, the fixed cost for a positive subtotal, nothing otherwise. -/
def shippingOf (subtotal : ℚ) : ℚ :=
  if subtotal > 1000 then 0 else (if subtotal > 0 then SHIPPING_COST else 0)

/-- The function `updateCartTotals`. Without the subtotal element it returns at
once; writing to a missing shipping or total element raises a `TypeError`. -/
def updateCartTotals (s : State) : Outcome Unit :=
  match s.dom.cartSubtotal with
  | none => ⟨s, some ()⟩
  | some _ =>
    let subtotal := subtotalOf s.shoppingCart
    let shipping := shippingOf subtotal
    let s1 := { s with grandTotal := subtotal + shipping }
    let s2 := { s1 with dom := { s1.dom with cartSubtotal := some subtotal } }
    match s2.dom.cartShipping with
    | none => ⟨s2, none⟩
    | some _ =>
      let s3 := { s2 with dom := { s2.dom with cartShipping := some shipping } }
      match s3.dom.cartTotal with
      | none => ⟨s3, none⟩
      | some _ => ⟨{ s3 with dom := { s3.dom with cartTotal := some s3.grandTotal } }, some ()⟩

/-- The row rendered for a line item. -/
def renderRow (item : LineItem) : CartRow :=
  { id := item.id, name := item.name,
    lineTotal := item.price.toRat * (item.quantity : ℚ), quantity := item.quantity }

/-- Set the `disabled` flag of the checkout button, when the page has one. -/
def setCheckoutDisabled (b : Bool) (s : State) : State :=
  match s.dom.checkoutButton with
  | none => s
  | some _ => { s with dom := { s.dom with checkoutButton := some b } }

/-- The function `renderCartItems`. -/
def renderCartItems (s : State) : Outcome Unit :=
  match s.dom.cartItemsContainer with
  | none => ⟨s, some ()⟩
  | some _ =>
    if s.shoppingCart.length = 0 then
      let s1 := { s with dom := { s.dom with cartItemsContainer := some [] } }
      updateCartTotals (setCheckoutDisabled true s1)
    else
      let s1 :=
        { s with dom := { s.dom with cartItemsContainer := some (s.shoppingCart.map renderRow) } }
      let o := updateCartTotals s1
      match o.result with
      | none => o
      | some _ => ⟨setCheckoutDisabled false o.state, some ()⟩

/-- The function `removeItem`. -/
def removeItem (s : State) (id : String) : Outcome Unit :=
  let s1 := { s with shoppingCart := s.shoppingCart.filter (fun item => item.id != id) }
  let o := renderCartItems (saveCart s1)
  match o.result with
  | none => o
  | some _ => ⟨updateCartCount o.state, some ()⟩

/-- The function `changeQuantity`. -/
def changeQuantity (s : State) (id : String) (delta : Int) : Outcome Unit :=
  match s.shoppingCart.find? (fun p => p.id == id) with
  | none => ⟨s, some ()⟩
  | some item =>
    let s1 := { s with shoppingCart := addToFound id delta s.shoppingCart }
    if item.quantity + delta < 1 then removeItem s1 id
    else renderCartItems (saveCart s1)

/-- The notice of the zero-amount guard of `payNow`. -/
def emptyCartNotice : String :=
  "Your cart is empty or the total is zero. Cannot proceed to payment."

/-- The function `payNow`. Its result is the configuration the payment widget is
opened with, or `none` when the guard stops the payment after its alert. -/
def payNow (s : State) : Outcome (Option RazorpayOptions) :=
  let o := updateCartTotals s
  match o.result with
  | none => ⟨o.state, none⟩
  | some _ =>
    let s1 := o.state
    if s1.grandTotal ≤ 0 then
      ⟨{ s1 with alerts := s1.alerts ++ [emptyCartNotice] }, some none⟩
    else
      let amountInPaisa := Math.round (s1.grandTotal * 100)
      ⟨s1, some (some { key := RAZORPAY_KEY, amount := amountInPaisa, currency := "INR" })⟩

/-- The success callback `handler` that `payNow` registers, called with the
payment id of the response. -/
def handler (s : State) (paymentId : String) : State :=
  let s1 := { s with alerts := s.alerts ++ ["Payment successful! Payment ID: " ++ paymentId] }
  let s2 := { s1 with shoppingCart := [] }
  let s3 := saveCart s2
  let s4 := updateCartCount s3
  { s4 with href := "index.html" }

/-! ## Reference definitions, after the specification -/

/-- Subtotal of the specification: the sum of `price * quantity` over all
items. -/
def specSubtotal (cart : List LineItem) : ℚ :=
  (cart.map (fun item => item.price.toRat * (item.quantity : ℚ))).sum

/-- Shipping of the specification: 0 when the subtotal is above 1000 or is 0,
the fixed fee 50 otherwise. -/
def specShipping (subtotal : ℚ) : ℚ := if subtotal > 1000 ∨ subtotal = 0 then 0 else 50

/-- Grand total of the specification. -/
def specGrandTotal (cart : List LineItem) : ℚ := specSubtotal cart + specShipping (specSubtotal cart)

/-- Every line item is well formed: price at least 0, quantity at least 1. -/
def WellFormed (cart : List LineItem) : Prop :=
  ∀ item ∈ cart, 0 ≤ item.price.toRat ∧ 1 ≤ item.quantity

/-- At most one line item per product id. -/
def UniqueIds (cart : List LineItem) : Prop := (cart.map LineItem.id).Nodup

/-- Every line item has quantity at least 1. -/
def QuantitiesPositive (cart : List LineItem) : Prop := ∀ item ∈ cart, 1 ≤ item.quantity

instance (cart : List LineItem) : Decidable (WellFormed cart) := by
  unfold WellFormed
  infer_instance

instance (cart : List LineItem) : Decidable (UniqueIds cart) := by
  unfold UniqueIds
  infer_instance

instance (cart : List LineItem) : Decidable (QuantitiesPositive cart) := by
  unfold QuantitiesPositive
  infer_instance

/-- Every line item of the stored value has quantity at least 1: whatever cart
the stored text loads as has positive quantities. -/
def StoredQuantitiesPositive (stored : Option String) : Prop :=
  ∀ cart, loadCart stored = .ok (cartToJs cart) → QuantitiesPositive cart

/-- Write-through consistency: the stored value is the serialization of the
cart in memory, and loading it gives that cart back. -/
def Consistent (s : State) : Prop :=
  s.localStorage = some (JSON.stringify (cartToJs s.shoppingCart)) ∧
    loadCart s.localStorage = .ok (cartToJs s.shoppingCart)

/-- A page with no mount point at all. -/
def Dom.bare : Dom :=
  { cartCount := none, cartItemsContainer := none, checkoutButton := none,
    cartSubtotal := none, cartShipping := none, cartTotal := none }

/-- The checkout page: every mount point present, nothing shown yet. -/
def Dom.checkout : Dom :=
  { cartCount := some 0, cartItemsContainer := some [], checkoutButton := some true,
    cartSubtotal := some 0, cartShipping := some 0, cartTotal := some 0 }

/-- State of a freshly loaded page with the given cart, stored value and
mount points: `grandTotal` starts at 0. -/
def State.fresh (cart : List LineItem) (stored : Option String) (dom : Dom) : State :=
  { shoppingCart := cart, grandTotal := 0, localStorage := stored, dom := dom,
    href := "checkout.html", alerts := [] }

/-- The line item of the payment scenario: one shoe at 600. -/
def shoe : LineItem := { id := "sku1", name := "Shoe", price := Decimal.ofInt 600, quantity := 1 }

/-- A second line item, for examples. -/
def sandal : LineItem :=
  { id := "sku2", name := "Sandal", price := ⟨24995, 2, Or.inr (by decide)⟩, quantity := 3 }

/-- `n` consecutive calls of `addToCart` with one id and the given names and
prices. -/
def addMany (id : String) : State → List (String × Decimal) → State
  | s, [] => s
  | s, (name, price) :: rest => addMany id (addToCart s id name price) rest

/-! ## Totals -/

/-- The left fold of `reduce` is the sum of the line totals. -/
theorem foldl_lineTotals (cart : List LineItem) (a : ℚ) :
    cart.foldl (fun sum item => sum + item.price.toRat * (item.quantity : ℚ)) a
      = a + specSubtotal cart := by
  induction cart generalizing a with
  | nil => simp [specSubtotal]
  | cons item rest ih =>
    simp only [List.foldl_cons, ih, specSubtotal, List.map_cons, List.sum_cons]
    ring

/-- The subtotal of a well-formed cart is not negative. -/
theorem specSubtotal_nonneg (cart : List LineItem) (h : WellFormed cart) :
    0 ≤ specSubtotal cart := by
  induction cart with
  | nil => simp [specSubtotal]
  | cons item rest ih =>
    have hi := h item (List.mem_cons_self _ _)
    have hr : WellFormed rest := fun x hx => h x (List.mem_cons_of_mem _ hx)
    have hq : (0 : ℚ) ≤ (item.quantity : ℚ) := by
      have : (0 : Int) ≤ item.quantity := by omega
      exact_mod_cast this
    have hrest := ih hr
    simp only [specSubtotal, List.map_cons, List.sum_cons] at hrest ⊢
    have := mul_nonneg hi.1 hq
    linarith

/-- The subtotal of the code is the subtotal of the specification. -/
theorem subtotalOf_eq_spec (cart : List LineItem) : subtotalOf cart = specSubtotal cart := by
  unfold subtotalOf
  rw [foldl_lineTotals, zero_add]

/-- The shipping rule of the code agrees with the rule of the specification on
subtotals that are not negative. -/
theorem shippingOf_eq_spec (x : ℚ) (h : 0 ≤ x) : shippingOf x = specShipping x := by
  unfold shippingOf specShipping SHIPPING_COST
  by_cases h1 : x > 1000
  · simp [h1]
  · by_cases h2 : x > 0
    · have h3 : x ≠ 0 := ne_of_gt h2
      simp [h1, h2, h3]
    · have h3 : x = 0 := le_antisymm (not_lt.mp h2) h
      simp [h3]

/-- The grand total of the code is that of the specification on a well-formed
cart. -/
theorem grandTotal_eq_spec (cart : List LineItem) (h : WellFormed cart) :
    subtotalOf cart + shippingOf (subtotalOf cart) = specGrandTotal cart := by
  rw [subtotalOf_eq_spec, shippingOf_eq_spec _ (specSubtotal_nonneg cart h)]
  rfl

/-- What `updateCartTotals` does on a page that has the subtotal element. -/
theorem updateCartTotals_computed (s : State) (shown : ℚ)
    (hmount : s.dom.cartSubtotal = some shown) :
    (updateCartTotals s).state.dom.cartSubtotal = some (subtotalOf s.shoppingCart) ∧
    (updateCartTotals s).state.grandTotal
      = subtotalOf s.shoppingCart + shippingOf (subtotalOf s.shoppingCart) ∧
    (s.dom.cartShipping.isSome = true →
      (updateCartTotals s).state.dom.cartShipping
        = some (shippingOf (subtotalOf s.shoppingCart))) ∧
    (s.dom.cartShipping.isSome = true → s.dom.cartTotal.isSome = true →
      (updateCartTotals s).state.dom.cartTotal
        = some (subtotalOf s.shoppingCart + shippingOf (subtotalOf s.shoppingCart)) ∧
      (updateCartTotals s).result = some ()) := by
  unfold updateCartTotals
  simp only [hmount]
  cases hs : s.dom.cartShipping with
  | none => simp
  | some x =>
    cases ht : s.dom.cartTotal with
    | none => simp
    | some y => simp

/-! ## What the operations do to the cart and to the stored value -/

theorem saveCart_cart (s : State) : (saveCart s).shoppingCart = s.shoppingCart := rfl

theorem saveCart_storage (s : State) :
    (saveCart s).localStorage = some (JSON.stringify (cartToJs s.shoppingCart)) := rfl

theorem updateCartCount_cart (s : State) : (updateCartCount s).shoppingCart = s.shoppingCart := by
  unfold updateCartCount
  cases s.dom.cartCount <;> rfl

theorem updateCartCount_storage (s : State) :
    (updateCartCount s).localStorage = s.localStorage := by
  unfold updateCartCount
  cases s.dom.cartCount <;> rfl

theorem setCheckoutDisabled_cart (b : Bool) (s : State) :
    (setCheckoutDisabled b s).shoppingCart = s.shoppingCart := by
  unfold setCheckoutDisabled
  cases s.dom.checkoutButton <;> rfl

theorem setCheckoutDisabled_storage (b : Bool) (s : State) :
    (setCheckoutDisabled b s).localStorage = s.localStorage := by
  unfold setCheckoutDisabled
  cases s.dom.checkoutButton <;> rfl

theorem updateCartTotals_cart (s : State) :
    (updateCartTotals s).state.shoppingCart = s.shoppingCart := by
  unfold updateCartTotals
  cases s.dom.cartSubtotal with
  | none => rfl
  | some a =>
    cases hs : s.dom.cartShipping with
    | none => simp [hs]
    | some b => cases ht : s.dom.cartTotal <;> simp [hs, ht]

theorem updateCartTotals_storage (s : State) :
    (updateCartTotals s).state.localStorage = s.localStorage := by
  unfold updateCartTotals
  cases s.dom.cartSubtotal with
  | none => rfl
  | some a =>
    cases hs : s.dom.cartShipping with
    | none => simp [hs]
    | some b => cases ht : s.dom.cartTotal <;> simp [hs, ht]

theorem renderCartItems_cart (s : State) :
    (renderCartItems s).state.shoppingCart = s.shoppingCart := by
  unfold renderCartItems
  cases s.dom.cartItemsContainer with
  | none => rfl
  | some rows =>
    by_cases hlen : s.shoppingCart.length = 0
    · simp [hlen, updateCartTotals_cart, setCheckoutDisabled_cart]
    · simp only [hlen, if_false]
      split
      · simp [updateCartTotals_cart]
      · simp [updateCartTotals_cart, setCheckoutDisabled_cart]

theorem renderCartItems_storage (s : State) :
    (renderCartItems s).state.localStorage = s.localStorage := by
  unfold renderCartItems
  cases s.dom.cartItemsContainer with
  | none => rfl
  | some rows =>
    by_cases hlen : s.shoppingCart.length = 0
    · simp [hlen, updateCartTotals_storage, setCheckoutDisabled_storage]
    · simp only [hlen, if_false]
      split
      · simp [updateCartTotals_storage]
      · simp [updateCartTotals_storage, setCheckoutDisabled_storage]

theorem removeItem_cart (s : State) (id : String) :
    (removeItem s id).state.shoppingCart = s.shoppingCart.filter (fun item => item.id != id) := by
  unfold removeItem
  simp only []
  split
  · simp [renderCartItems_cart, saveCart_cart]
  · simp [renderCartItems_cart, saveCart_cart, updateCartCount_cart]

theorem removeItem_storage (s : State) (id : String) :
    (removeItem s id).state.localStorage
      = some (JSON.stringify (cartToJs (s.shoppingCart.filter (fun item => item.id != id)))) := by
  unfold removeItem
  simp only []
  split
  · simp [renderCartItems_storage, saveCart_storage]
  · simp [renderCartItems_storage, saveCart_storage, updateCartCount_storage]

theorem addToCart_cart (s : State) (id name : String) (price : Decimal) :
    (addToCart s id name price).shoppingCart =
      match s.shoppingCart.find? (fun item => item.id == id) with
      | some _ => addToFound id 1 s.shoppingCart
      | none => s.shoppingCart ++ [{ id := id, name := name, price := price, quantity := 1 }] := by
  unfold addToCart
  cases s.shoppingCart.find? (fun item => item.id == id) <;>
    simp [updateCartCount_cart, saveCart_cart]

theorem addToCart_storage (s : State) (id name : String) (price : Decimal) :
    (addToCart s id name price).localStorage
      = some (JSON.stringify (cartToJs (addToCart s id name price).shoppingCart)) := by
  unfold addToCart
  cases s.shoppingCart.find? (fun item => item.id == id) <;>
    simp [updateCartCount_cart, updateCartCount_storage, saveCart_cart, saveCart_storage]

theorem handler_cart (s : State) (paymentId : String) : (handler s paymentId).shoppingCart = [] := by
  unfold handler
  simp [updateCartCount_cart, saveCart_cart]

theorem handler_storage (s : State) (paymentId : String) :
    (handler s paymentId).localStorage = some (JSON.stringify (cartToJs [])) := by
  unfold handler
  simp [updateCartCount_storage, saveCart_storage]

/-- The lookup by id finds nothing exactly when no line item has the id. -/
theorem find_none_iff (cart : List LineItem) (id : String) :
    cart.find? (fun item => item.id == id) = none ↔ ∀ item ∈ cart, item.id ≠ id := by
  simp [List.find?_eq_none]

/-- Updating the found item leaves the other ids out of account: removing the
id afterwards gives the same list. -/
theorem filter_addToFound (id : String) (delta : Int) (cart : List LineItem) :
    (addToFound id delta cart).filter (fun item => item.id != id)
      = cart.filter (fun item => item.id != id) := by
  induction cart with
  | nil => rfl
  | cons item rest ih =>
    unfold addToFound
    by_cases h : item.id = id
    · simp [h]
    · simp [h, ih]

theorem map_id_addToFound (id : String) (delta : Int) (cart : List LineItem) :
    (addToFound id delta cart).map LineItem.id = cart.map LineItem.id := by
  induction cart with
  | nil => rfl
  | cons item rest ih =>
    unfold addToFound
    by_cases h : item.id = id
    · simp [h]
    · simp [h, ih]

/-- Updating the found item when it is the one behind a prefix without the
id. -/
theorem addToFound_append (id : String) (delta : Int) (pre post : List LineItem)
    (item : LineItem) (hpre : ∀ p ∈ pre, p.id ≠ id) (hid : item.id = id) :
    addToFound id delta (pre ++ item :: post)
      = pre ++ { item with quantity := item.quantity + delta } :: post := by
  induction pre with
  | nil => simp [addToFound, hid]
  | cons p rest ih =>
    have hp : p.id ≠ id := hpre p (List.mem_cons_self _ _)
    have hrest : ∀ q ∈ rest, q.id ≠ id := fun q hq => hpre q (List.mem_cons_of_mem _ hq)
    simp [addToFound, hp, ih hrest]

theorem changeQuantity_cart (s : State) (id : String) (delta : Int) :
    (changeQuantity s id delta).state.shoppingCart =
      match s.shoppingCart.find? (fun p => p.id == id) with
      | none => s.shoppingCart
      | some item =>
        if item.quantity + delta < 1 then s.shoppingCart.filter (fun p => p.id != id)
        else addToFound id delta s.shoppingCart := by
  unfold changeQuantity
  cases s.shoppingCart.find? (fun p => p.id == id) with
  | none => rfl
  | some item =>
    by_cases h : item.quantity + delta < 1
    · simp [h, removeItem_cart, filter_addToFound]
    · simp [h, renderCartItems_cart, saveCart_cart]

theorem changeQuantity_storage (s : State) (id : String) (delta : Int) (item : LineItem)
    (hfound : s.shoppingCart.find? (fun p => p.id == id) = some item) :
    (changeQuantity s id delta).state.localStorage
      = some (JSON.stringify (cartToJs (changeQuantity s id delta).state.shoppingCart)) := by
  rw [changeQuantity_cart]
  unfold changeQuantity
  simp only [hfound]
  by_cases h : item.quantity + delta < 1
  · simp [h, removeItem_storage, filter_addToFound]
  · simp [h, renderCartItems_storage, saveCart_storage]

theorem changeQuantity_absent (s : State) (id : String) (delta : Int)
    (habsent : s.shoppingCart.find? (fun p => p.id == id) = none) :
    changeQuantity s id delta = ⟨s, some ()⟩ := by
  unfold changeQuantity
  simp [habsent]

/-! ## Reading back what `JSON.stringify` writes -/

theorem hex_roundtrip (n : Nat) (h : n < 32) :
    hexVal (hexDigit (n / 16)) = some (n / 16) ∧ hexVal (hexDigit (n % 16)) = some (n % 16) := by
  interval_cases n <;> decide

theorem parseString_quote (rest : List Char) : parseString (quote :: rest) = some ([], rest) := by
  rw [parseString.eq_def]
  simp

theorem parseString_escape (e d : Char) (r : List Char) (hu : e ≠ 'u')
    (hd : unescape e = some d) :
    parseString (backslash :: e :: r) = (parseString r).map (fun p => (d :: p.1, p.2)) := by
  rw [parseString.eq_def]
  simp [show backslash ≠ quote by decide, hu, hd]

theorem parseString_hex (a b x y : Char) (h1 h2 h3 h4 : Nat) (r : List Char)
    (ha : hexVal a = some h1) (hb : hexVal b = some h2) (hx : hexVal x = some h3)
    (hy : hexVal y = some h4) :
    parseString (backslash :: 'u' :: a :: b :: x :: y :: r)
      = (parseString r).map
          (fun p => (Char.ofNat (((h1 * 16 + h2) * 16 + h3) * 16 + h4) :: p.1, p.2)) := by
  rw [parseString.eq_def]
  simp [show backslash ≠ quote by decide, ha, hb, hx, hy]

theorem parseString_plain (c : Char) (r : List Char) (hq : c ≠ quote) (hb : c ≠ backslash)
    (hc : ¬ c.toNat < 32) :
    parseString (c :: r) = (parseString r).map (fun p => (c :: p.1, p.2)) := by
  rw [parseString.eq_def]
  simp [hq, hb, hc]

theorem parseString_escapeChars (cs rest : List Char) :
    parseString (escapeChars cs ++ quote :: rest) = some (cs, rest) := by
  induction cs with
  | nil => simp [escapeChars, parseString_quote]
  | cons c cs ih =>
    simp only [escapeChars]
    unfold escapeChar
    split_ifs with h1 h2 h3 h4 h5 h6 h7 h8
    · subst h1
      simp [parseString_escape quote quote _ (by decide) (by decide), ih]
    · subst h2
      simp [parseString_escape backslash backslash _ (by decide) (by decide), ih]
    · subst h3
      simp [parseString_escape 'b' (Char.ofNat 8) _ (by decide) (by decide), ih]
    · subst h4
      simp [parseString_escape 'f' (Char.ofNat 12) _ (by decide) (by decide), ih]
    · subst h5
      simp [parseString_escape 'n' (Char.ofNat 10) _ (by decide) (by decide), ih]
    · subst h6
      simp [parseString_escape 'r' (Char.ofNat 13) _ (by decide) (by decide), ih]
    · subst h7
      simp [parseString_escape 't' (Char.ofNat 9) _ (by decide) (by decide), ih]
    · have hh := hex_roundtrip c.toNat h8
      have h0 : hexVal '0' = some 0 := by decide
      have hn : ((0 * 16 + 0) * 16 + c.toNat / 16) * 16 + c.toNat % 16 = c.toNat := by omega
      simp only [List.cons_append, List.nil_append, List.append_assoc]
      rw [parseString_hex _ _ _ _ _ _ _ _ _ h0 h0 hh.1 hh.2, ih, hn, Char.ofNat_toNat]
      rfl
    · simp [parseString_plain c _ h1 h2 h8, ih]


theorem digitChar_spec (d : Nat) (h : d < 10) :
    isDigit (digitChar d) = true ∧ digitVal (digitChar d) = d ∧ (digitChar d = '0' ↔ d = 0) := by
  interval_cases d <;> decide

theorem digitsAux_eq (n : Nat) : ∀ (fuel : Nat) (tail : List Char), n < fuel →
    digitsAux fuel n tail = natDigits n ++ tail := by
  induction n using Nat.strong_induction_on with
  | _ n ih =>
    intro fuel tail hf
    obtain ⟨f, rfl⟩ : ∃ f, fuel = f + 1 := ⟨fuel - 1, by omega⟩
    unfold natDigits
    by_cases h : n < 10
    · simp [digitsAux, h]
    · have h1 : n / 10 < n := by omega
      have h2 : n / 10 < f := by omega
      simp only [digitsAux, h, if_false]
      rw [ih (n / 10) h1 f _ h2, ih (n / 10) h1 n _ h1]
      simp

theorem natDigits_small (n : Nat) (h : n < 10) : natDigits n = [digitChar n] := by
  simp [natDigits, digitsAux, h]

theorem natDigits_large (n : Nat) (h : ¬ n < 10) :
    natDigits n = natDigits (n / 10) ++ [digitChar (n % 10)] := by
  have h1 : n / 10 < n := by omega
  conv_lhs => unfold natDigits
  simp only [digitsAux, h, if_false]
  exact digitsAux_eq (n / 10) n _ h1

theorem natDigits_isDigit (n : Nat) : ∀ c ∈ natDigits n, isDigit c = true := by
  induction n using Nat.strong_induction_on with
  | _ n ih =>
    by_cases h : n < 10
    · rw [natDigits_small n h]
      intro c hc
      rw [List.mem_singleton] at hc
      rw [hc]
      exact (digitChar_spec n h).1
    · rw [natDigits_large n h]
      intro c hc
      rcases List.mem_append.mp hc with hc | hc
      · exact ih (n / 10) (by omega) c hc
      · rw [List.mem_singleton] at hc
        rw [hc]
        exact (digitChar_spec (n % 10) (by omega)).1

theorem natDigits_value (n : Nat) :
    (natDigits n).foldl (fun a c => a * 10 + digitVal c) 0 = n := by
  induction n using Nat.strong_induction_on with
  | _ n ih =>
    by_cases h : n < 10
    · rw [natDigits_small n h]
      simp [(digitChar_spec n h).2.1]
    · rw [natDigits_large n h, List.foldl_append, ih (n / 10) (by omega)]
      simp [(digitChar_spec (n % 10) (by omega)).2.1]
      omega

theorem natDigits_head (n : Nat) (h : n ≠ 0) :
    ∃ c tl, natDigits n = c :: tl ∧ c ≠ '0' := by
  induction n using Nat.strong_induction_on with
  | _ n ih =>
    by_cases h10 : n < 10
    · refine ⟨digitChar n, [], natDigits_small n h10, ?_⟩
      intro hc
      exact h ((digitChar_spec n h10).2.2.mp hc)
    · obtain ⟨c, tl, htl, hc⟩ := ih (n / 10) (by omega) (by omega)
      exact ⟨c, tl ++ [digitChar (n % 10)], by rw [natDigits_large n h10, htl]; rfl, hc⟩

theorem natDigits_zero : natDigits 0 = ['0'] := by decide

theorem natDigits_ne_nil (n : Nat) : natDigits n ≠ [] := by
  by_cases h : n = 0
  · subst h
    rw [natDigits_zero]
    simp
  · obtain ⟨c, tl, htl, _⟩ := natDigits_head n h
    rw [htl]
    simp

/-- Text at which the reading of a number stops. -/
theorem readDigits_stop (rest : List Char) (acc cnt : Nat)
    (h : ∀ c r, rest = c :: r → isDigit c = false) :
    readDigits rest acc cnt = (acc, cnt, rest) := by
  cases rest with
  | nil => rfl
  | cons c r => simp [readDigits, h c r rfl]

theorem readDigits_append (ds rest : List Char) (acc cnt : Nat)
    (hds : ∀ c ∈ ds, isDigit c = true) :
    readDigits (ds ++ rest) acc cnt
      = readDigits rest (ds.foldl (fun a c => a * 10 + digitVal c) acc) (cnt + ds.length) := by
  induction ds generalizing acc cnt with
  | nil => simp
  | cons d ds ih =>
    have hd : isDigit d = true := hds d (List.mem_cons_self _ _)
    have hrest : ∀ c ∈ ds, isDigit c = true := fun c hc => hds c (List.mem_cons_of_mem _ hc)
    rw [List.cons_append, readDigits]
    simp only [hd, if_true, List.foldl_cons, List.length_cons]
    rw [ih _ _ hrest]
    congr 1
    omega


theorem readInt_zero (tail : List Char) : readInt ('0' :: tail) = some (0, tail) := by
  simp [readInt]

theorem readInt_digits (c : Char) (tl tail : List Char) (hc0 : c ≠ '0')
    (hc : isDigit c = true) (htl : ∀ x ∈ tl, isDigit x = true)
    (hstop : ∀ x r, tail = x :: r → isDigit x = false) :
    readInt (c :: (tl ++ tail))
      = some ((c :: tl).foldl (fun a x => a * 10 + digitVal x) 0, tail) := by
  simp [readInt, hc0, hc, readDigits_append tl tail _ _ htl, readDigits_stop tail _ _ hstop]

theorem readFrac_none (n : Nat) (tail : List Char) (h : ∀ x r, tail = x :: r → x ≠ '.') :
    readFrac n tail = some (n, 0, tail) := by
  cases tail with
  | nil => rfl
  | cons x r => simp [readFrac, h x r rfl]

theorem readFrac_digits (n : Nat) (fs tail : List Char) (hne : fs ≠ [])
    (hfs : ∀ x ∈ fs, isDigit x = true) (hstop : ∀ x r, tail = x :: r → isDigit x = false) :
    readFrac n ('.' :: (fs ++ tail))
      = some (fs.foldl (fun a x => a * 10 + digitVal x) n, fs.length, tail) := by
  cases fs with
  | nil => exact absurd rfl hne
  | cons d ds =>
    have hd : isDigit d = true := hfs d (List.mem_cons_self _ _)
    have h := readDigits_append (d :: ds) tail n 0 hfs
    rw [readDigits_stop tail _ _ hstop] at h
    simp only [List.cons_append] at h
    simp [readFrac, hd, h]

theorem readExp_none (tail : List Char) (h : ∀ x r, tail = x :: r → x ≠ 'e' ∧ x ≠ 'E') :
    readExp tail = some (0, tail) := by
  cases tail with
  | nil => rfl
  | cons x r => simp [readExp, h x r rfl]

theorem scaled_zero (d : Decimal) : Decimal.scaled d.mant d.scale 0 = d := by
  obtain ⟨m, k, hn⟩ := d
  cases k with
  | zero => simp [Decimal.scaled, Decimal.ofInt]
  | succ k =>
    have h : ¬ m % 10 = 0 := by
      rcases hn with h | h
      · omega
      · exact h
    simp [Decimal.scaled, Decimal.normalize, h]

theorem replicate_zero_value (z : Nat) :
    (List.replicate z '0').foldl (fun a x => a * 10 + digitVal x) 0 = 0 := by
  induction z with
  | zero => rfl
  | succ z ih =>
    rw [List.replicate_succ, List.foldl_cons]
    simpa [show digitVal '0' = 0 by decide] using ih

/-- Reading back the text of `n / 10 ^ k` gives mantissa `n` and `k` fraction
digits. -/
theorem read_numberBody (n k : Nat) (rest : List Char)
    (hend : ∀ x r, rest = x :: r → isDigit x = false ∧ x ≠ '.' ∧ x ≠ 'e' ∧ x ≠ 'E') :
    ∃ mid, readInt (numberBody n k ++ rest) = some mid ∧
      readFrac mid.1 mid.2 = some (n, k, rest) := by
  have hstop : ∀ x r, rest = x :: r → isDigit x = false := fun x r h => (hend x r h).1
  have hdot : ∀ x r, rest = x :: r → x ≠ '.' := fun x r h => (hend x r h).2.1
  have hdig := natDigits_isDigit n
  have hval := natDigits_value n
  unfold numberBody
  by_cases hk : k = 0
  · subst hk
    simp only [if_true]
    by_cases hn : n = 0
    · subst hn
      refine ⟨(0, rest), ?_, readFrac_none 0 rest hdot⟩
      rw [natDigits_zero]
      exact readInt_zero rest
    · obtain ⟨c, tl, htl, hc0⟩ := natDigits_head n hn
      rw [htl] at hdig hval ⊢
      refine ⟨(n, rest), ?_, readFrac_none n rest hdot⟩
      rw [List.cons_append,
        readInt_digits c tl rest hc0 (hdig c (List.mem_cons_self _ _))
          (fun x hx => hdig x (List.mem_cons_of_mem _ hx)) hstop, hval]
  · simp only [hk, if_false]
    by_cases hlen : k < (natDigits n).length
    · simp only [hlen, if_true]
      have hn : n ≠ 0 := by
        intro h0
        rw [h0, natDigits_zero] at hlen
        simp at hlen
        omega
      obtain ⟨c, tl, htl, hc0⟩ := natDigits_head n hn
      have htake : (natDigits n).take ((natDigits n).length - k)
          = c :: tl.take ((natDigits n).length - k - 1) := by
        rw [htl]
        obtain ⟨a, ha⟩ : ∃ a, (c :: tl).length - k = a + 1 := ⟨(c :: tl).length - k - 1, by
          rw [htl] at hlen
          omega⟩
        rw [ha]
        simp
      have hdrop_dig : ∀ x ∈ (natDigits n).drop ((natDigits n).length - k), isDigit x = true :=
        fun x hx => hdig x (List.mem_of_mem_drop hx)
      have htake_dig : ∀ x ∈ tl.take ((natDigits n).length - k - 1), isDigit x = true :=
        fun x hx => hdig x (by rw [htl]; exact List.mem_cons_of_mem _ (List.mem_of_mem_take hx))
      have hdrop_len : ((natDigits n).drop ((natDigits n).length - k)).length = k := by
        rw [List.length_drop]
        omega
      have hdrop_ne : (natDigits n).drop ((natDigits n).length - k) ≠ [] := by
        intro h
        rw [h] at hdrop_len
        simp at hdrop_len
        omega
      refine ⟨(((natDigits n).take ((natDigits n).length - k)).foldl
          (fun a x => a * 10 + digitVal x) 0,
          '.' :: ((natDigits n).drop ((natDigits n).length - k) ++ rest)), ?_, ?_⟩
      · rw [htake, List.append_assoc, List.cons_append]
        exact readInt_digits c _ _ hc0 (hdig c (by rw [htl]; exact List.mem_cons_self _ _))
          htake_dig (fun x r h => by
            rw [List.cons_append] at h
            injection h with h1 _
            rw [← h1]
            decide)
      · rw [readFrac_digits _ _ rest hdrop_ne hdrop_dig hstop, ← List.foldl_append,
          List.take_append_drop, hval, hdrop_len]
    · simp only [hlen, if_false]
      have hz_dig : ∀ x ∈ List.replicate (k - (natDigits n).length) '0' ++ natDigits n,
          isDigit x = true := by
        intro x hx
        rcases List.mem_append.mp hx with hx | hx
        · rw [(List.mem_replicate.mp hx).2]
          decide
        · exact hdig x hx
      have hz_ne : List.replicate (k - (natDigits n).length) '0' ++ natDigits n ≠ [] := by
        intro h
        exact natDigits_ne_nil n (List.append_eq_nil.mp h).2
      refine ⟨(0, '.' :: ((List.replicate (k - (natDigits n).length) '0' ++ natDigits n) ++ rest)),
        ?_, ?_⟩
      · exact readInt_zero _
      · rw [readFrac_digits 0 _ rest hz_ne hz_dig hstop, List.foldl_append,
          replicate_zero_value _, hval, List.length_append, List.length_replicate]
        have hk2 : k - (natDigits n).length + (natDigits n).length = k := by omega
        rw [hk2]


theorem numberBody_head (n k : Nat) :
    ∃ c tl, numberBody n k = c :: tl ∧ isDigit c = true := by
  have hdig := natDigits_isDigit n
  have hne := natDigits_ne_nil n
  unfold numberBody
  cases hds : natDigits n with
  | nil => exact absurd hds hne
  | cons c tl =>
    rw [hds] at hdig
    have hc : isDigit c = true := hdig c (List.mem_cons_self _ _)
    by_cases hk : k = 0
    · exact ⟨c, tl, by simp [hk], hc⟩
    · by_cases hlen : k < (c :: tl).length
      · obtain ⟨a, ha⟩ : ∃ a, (c :: tl).length - k = a + 1 := ⟨(c :: tl).length - k - 1, by omega⟩
        refine ⟨c, tl.take a ++ '.' :: (c :: tl).drop (a + 1), ?_, hc⟩
        rw [if_neg hk, if_pos hlen, ha]
        rfl
      · refine ⟨'0', '.' :: (List.replicate (k - (c :: tl).length) '0' ++ c :: tl), ?_, by decide⟩
        rw [if_neg hk, if_neg hlen]

theorem numberText_head (d : Decimal) :
    ∃ c tl, numberText d = c :: tl ∧ (c = '-' ∨ isDigit c = true) := by
  unfold numberText
  by_cases h : d.mant < 0
  · exact ⟨'-', numberBody d.mant.natAbs d.scale, by rw [if_pos h], Or.inl rfl⟩
  · obtain ⟨c, tl, htl, hc⟩ := numberBody_head d.mant.natAbs d.scale
    exact ⟨c, tl, by simp only [h, if_false, htl], Or.inr hc⟩

theorem readUnsigned_numberBody (neg : Bool) (n k : Nat) (rest : List Char)
    (hend : ∀ x r, rest = x :: r → isDigit x = false ∧ x ≠ '.' ∧ x ≠ 'e' ∧ x ≠ 'E') :
    readUnsigned neg (numberBody n k ++ rest)
      = some (Decimal.scaled (if neg then -(n : Int) else (n : Int)) k 0, rest) := by
  obtain ⟨mid, h1, h2⟩ := read_numberBody n k rest hend
  have h3 := readExp_none rest (fun x r h => (hend x r h).2.2)
  unfold readUnsigned
  rw [h1]
  simp only [h2, h3]

theorem parseNumber_numberText (d : Decimal) (rest : List Char)
    (hend : ∀ x r, rest = x :: r → isDigit x = false ∧ x ≠ '.' ∧ x ≠ 'e' ∧ x ≠ 'E') :
    parseNumber (numberText d ++ rest) = some (d, rest) := by
  unfold numberText
  by_cases h : d.mant < 0
  · have hm : -((d.mant.natAbs : Nat) : Int) = d.mant := by omega
    simp only [h, if_true, List.cons_append, parseNumber,
      readUnsigned_numberBody true _ _ rest hend, hm, scaled_zero]
  · have hm : ((d.mant.natAbs : Nat) : Int) = d.mant := by omega
    obtain ⟨c, tl, htl, hc⟩ := numberBody_head d.mant.natAbs d.scale
    have hcm : c ≠ '-' := by
      intro hc2
      rw [hc2] at hc
      exact absurd hc (by decide)
    have h2 := readUnsigned_numberBody false d.mant.natAbs d.scale rest hend
    rw [htl] at h2
    simp only [h, if_false, htl, List.cons_append, parseNumber, hcm]
    rw [List.cons_append] at h2
    rw [h2]
    simp [hm, scaled_zero]


theorem skipWs_cons (c : Char) (r : List Char) (h : isWs c = false) : skipWs (c :: r) = c :: r := by
  simp [skipWs, h]

theorem number_head_not_ws (c : Char) (h : c = '-' ∨ isDigit c = true) : isWs c = false := by
  cases hw : isWs c with
  | false => rfl
  | true =>
    exfalso
    simp only [isWs, Bool.or_eq_true, decide_eq_true_eq] at hw
    rcases hw with ((hw | hw) | hw) | hw <;> subst hw <;> revert h <;> decide

theorem number_head_not_quote (c : Char) (h : c = '-' ∨ isDigit c = true) : c ≠ quote := by
  intro hq
  subst hq
  revert h
  decide

theorem stringText_append (k : String) (t : List Char) :
    stringText k ++ t = quote :: (escapeChars k.data ++ quote :: t) := by
  simp [stringText]

theorem skipWs_stringText (k : String) (t : List Char) :
    skipWs (stringText k ++ t) = stringText k ++ t := by
  rw [stringText_append]
  exact skipWs_cons _ _ (by decide)

theorem skipWs_numberText (d : Decimal) (t : List Char) :
    skipWs (numberText d ++ t) = numberText d ++ t := by
  obtain ⟨c, tl, htl, hc⟩ := numberText_head d
  rw [htl, List.cons_append]
  exact skipWs_cons _ _ (number_head_not_ws c hc)

theorem parseValue_string (f : Nat) (s : String) (rest : List Char) :
    parseValue (f + 1) (stringText s ++ rest) = some (JsValue.str s, rest) := by
  rw [stringText_append, parseValue.eq_3]
  simp [parseString_escapeChars]

theorem parseValue_number (f : Nat) (d : Decimal) (rest : List Char)
    (hend : ∀ x r, rest = x :: r → isDigit x = false ∧ x ≠ '.' ∧ x ≠ 'e' ∧ x ≠ 'E') :
    parseValue (f + 1) (numberText d ++ rest) = some (JsValue.num d, rest) := by
  have hp := parseNumber_numberText d rest hend
  obtain ⟨c, tl, htl, hc⟩ := numberText_head d
  rw [htl, List.cons_append] at hp ⊢
  rw [parseValue.eq_3]
  simp [number_head_not_quote c hc, hc, hp]

theorem parseMembers_more (f : Nat) (k : String) (vt more : List Char) (v : JsValue)
    (hv : parseValue f (vt ++ ',' :: more) = some (v, ',' :: more))
    (hws : skipWs (vt ++ ',' :: more) = vt ++ ',' :: more) (hmore : skipWs more = more) :
    parseMembers (f + 1) (stringText k ++ ':' :: (vt ++ ',' :: more))
      = (parseMembers f more).map (fun p => ((k, v) :: p.1, p.2)) := by
  rw [stringText_append, parseMembers.eq_3]
  simp [parseString_escapeChars, skipWs_cons ':' _ (by decide), hws, hv,
    skipWs_cons ',' _ (by decide), hmore]

theorem parseMembers_last (f : Nat) (k : String) (vt rest : List Char) (v : JsValue)
    (hv : parseValue f (vt ++ rbrace :: rest) = some (v, rbrace :: rest))
    (hws : skipWs (vt ++ rbrace :: rest) = vt ++ rbrace :: rest) :
    parseMembers (f + 1) (stringText k ++ ':' :: (vt ++ rbrace :: rest))
      = some ([(k, v)], rest) := by
  rw [stringText_append, parseMembers.eq_3]
  simp [parseString_escapeChars, skipWs_cons ':' _ (by decide), hws, hv,
    skipWs_cons rbrace _ (by decide), show rbrace ≠ ',' by decide]

theorem parseValue_obj (f : Nat) (t rest : List Char) (ms : List (String × JsValue))
    (hm : parseMembers f (quote :: t) = some (ms, rest)) :
    parseValue (f + 1) (lbrace :: quote :: t) = some (JsValue.obj ms, rest) := by
  rw [parseValue.eq_3]
  simp [show lbrace ≠ quote by decide, show lbrace ≠ '-' by decide,
    show isDigit lbrace = false by decide, show lbrace ≠ '[' by decide,
    skipWs_cons quote _ (by decide), show quote ≠ rbrace by decide, hm]

theorem parseValue_arr (f : Nat) (t rest : List Char) (vs : List JsValue)
    (hm : parseElems f (lbrace :: t) = some (vs, rest)) :
    parseValue (f + 1) ('[' :: lbrace :: t) = some (JsValue.arr vs, rest) := by
  rw [parseValue.eq_3]
  simp [show '[' ≠ quote by decide, show isDigit '[' = false by decide,
    skipWs_cons lbrace _ (by decide), show lbrace ≠ ']' by decide, hm]

theorem parseElems_last (f : Nat) (vt rest : List Char) (v : JsValue)
    (hv : parseValue f (vt ++ ']' :: rest) = some (v, ']' :: rest)) :
    parseElems (f + 1) (vt ++ ']' :: rest) = some ([v], rest) := by
  rw [parseElems.eq_2]
  simp [hv, skipWs_cons ']' _ (by decide)]

theorem parseElems_more (f : Nat) (vt more : List Char) (v : JsValue)
    (hv : parseValue f (vt ++ ',' :: more) = some (v, ',' :: more))
    (hmore : skipWs more = more) :
    parseElems (f + 1) (vt ++ ',' :: more)
      = (parseElems f more).map (fun p => (v :: p.1, p.2)) := by
  rw [parseElems.eq_2]
  simp [hv, skipWs_cons ',' _ (by decide), hmore]



theorem comma_ends_number :
    ∀ (t : List Char) (x : Char) (r : List Char), ',' :: t = x :: r →
      isDigit x = false ∧ x ≠ '.' ∧ x ≠ 'e' ∧ x ≠ 'E' := by
  intro t x r h
  injection h with h1 _
  subst h1
  decide

theorem rbrace_ends_number :
    ∀ (t : List Char) (x : Char) (r : List Char), rbrace :: t = x :: r →
      isDigit x = false ∧ x ≠ '.' ∧ x ≠ 'e' ∧ x ≠ 'E' := by
  intro t x r h
  injection h with h1 _
  subst h1
  decide

/-- The text of a cart record, spelled out. -/
theorem itemText_eq (item : LineItem) (rest : List Char) :
    stringifyValue item.toJs ++ rest =
      lbrace :: (stringText "id" ++ ':' :: (stringText item.id ++ ',' ::
        (stringText "name" ++ ':' :: (stringText item.name ++ ',' ::
          (stringText "price" ++ ':' :: (numberText item.price ++ ',' ::
            (stringText "quantity" ++ ':' ::
              (numberText (Decimal.ofInt item.quantity) ++ rbrace :: rest)))))))) := by
  simp [LineItem.toJs, stringifyValue, stringifyMembers, List.append_assoc]

/-- Reading back the text of a cart record. -/
theorem parseValue_item (f : Nat) (item : LineItem) (rest : List Char) :
    parseValue (f + 6) (stringifyValue item.toJs ++ rest) = some (item.toJs, rest) := by
  rw [itemText_eq, stringText_append "id"]
  apply parseValue_obj
  rw [← stringText_append "id"]
  rw [parseMembers_more (f + 4) "id" _ _ (JsValue.str item.id)
        (parseValue_string _ _ _) (skipWs_stringText _ _) (skipWs_stringText _ _),
      parseMembers_more (f + 3) "name" _ _ (JsValue.str item.name)
        (parseValue_string _ _ _) (skipWs_stringText _ _) (skipWs_stringText _ _),
      parseMembers_more (f + 2) "price" _ _ (JsValue.num item.price)
        (parseValue_number _ _ _ (comma_ends_number _)) (skipWs_numberText _ _)
        (skipWs_stringText _ _),
      parseMembers_last (f + 1) "quantity" _ _ (JsValue.num (Decimal.ofInt item.quantity))
        (parseValue_number _ _ _ (rbrace_ends_number _)) (skipWs_numberText _ _)]
  rfl

theorem itemText_head (item : LineItem) (rest : List Char) :
    ∃ t, stringifyValue item.toJs ++ rest = lbrace :: t := ⟨_, itemText_eq item rest⟩

theorem itemText_length (item : LineItem) : 7 ≤ (stringifyValue item.toJs).length := by
  have h := congrArg List.length (itemText_eq item [])
  simp only [List.append_nil, List.length_cons, List.length_append, stringText] at h
  omega

theorem elemsText_head (item : LineItem) (items : List LineItem) (rest : List Char) :
    ∃ t, stringifyElems ((item :: items).map LineItem.toJs) ++ rest = lbrace :: t := by
  cases items with
  | nil =>
    simp only [List.map_cons, List.map_nil, stringifyElems]
    exact itemText_head item rest
  | cons item2 items =>
    simp only [List.map_cons, stringifyElems, List.append_assoc]
    exact itemText_head item _

/-- Reading back the elements of a serialized cart that is not empty. -/
theorem parseElems_cart (items : List LineItem) :
    ∀ (item : LineItem) (f : Nat) (rest : List Char),
      parseElems (f + items.length + 7)
          (stringifyElems ((item :: items).map LineItem.toJs) ++ ']' :: rest)
        = some ((item :: items).map LineItem.toJs, rest) := by
  induction items with
  | nil =>
    intro item f rest
    simp only [List.map_cons, List.map_nil, stringifyElems, List.length_nil, Nat.add_zero]
    exact parseElems_last (f + 6) _ rest _ (parseValue_item f item _)
  | cons item2 items ih =>
    intro item f rest
    have hws : skipWs (stringifyElems ((item2 :: items).map LineItem.toJs) ++ ']' :: rest)
        = stringifyElems ((item2 :: items).map LineItem.toJs) ++ ']' :: rest := by
      obtain ⟨t, ht⟩ := elemsText_head item2 items (']' :: rest)
      rw [ht]
      exact skipWs_cons _ _ (by decide)
    have hf : f + (item2 :: items).length + 7 = (f + items.length + 1 + 6) + 1 := by
      simp only [List.length_cons]
      omega
    have hf2 : f + items.length + 1 + 6 = f + items.length + 7 := by omega
    have htext : stringifyElems ((item :: item2 :: items).map LineItem.toJs) ++ ']' :: rest
        = stringifyValue item.toJs ++ ',' ::
            (stringifyElems ((item2 :: items).map LineItem.toJs) ++ ']' :: rest) := by
      simp only [List.map_cons, stringifyElems, List.append_assoc, List.cons_append]
    rw [hf, htext,
      parseElems_more _ _ _ item.toJs (parseValue_item (f + items.length + 1) item _) hws,
      hf2, ih item2 f rest]
    rfl

theorem elemsText_length (items : List LineItem) :
    ∀ item : LineItem,
      7 * (items.length + 1) ≤ (stringifyElems ((item :: items).map LineItem.toJs)).length := by
  induction items with
  | nil =>
    intro item
    simp only [List.map_cons, List.map_nil, stringifyElems, List.length_nil]
    have := itemText_length item
    omega
  | cons item2 items ih =>
    intro item
    have h1 := itemText_length item
    have h2 := ih item2
    simp only [List.map_cons, stringifyElems, List.length_append, List.length_cons] at h2 ⊢
    omega

/-- A serialized cart reads back as the array of its records. -/
theorem parse_stringify_cart (cart : List LineItem) :
    JSON.parse (JSON.stringify (cartToJs cart)) = .ok (cartToJs cart) := by
  cases cart with
  | nil => rfl
  | cons item items =>
    have hlen := elemsText_length items item
    obtain ⟨t, ht⟩ := elemsText_head item items [']']
    have hparse := parseElems_cart items item
    unfold JSON.parse JSON.stringify cartToJs
    simp only [stringifyValue]
    obtain ⟨f, hf⟩ : ∃ f, ('[' :: (stringifyElems ((item :: items).map LineItem.toJs)
        ++ [']'])).length + 1 = (f + items.length + 7) + 1 := by
      refine ⟨('[' :: (stringifyElems ((item :: items).map LineItem.toJs)
        ++ [']'])).length - (items.length + 7), ?_⟩
      simp only [List.length_cons, List.length_append, List.length_nil]
      omega
    rw [hf, skipWs_cons '[' _ (by decide), ht, parseValue_arr _ t [] _ (by
      rw [← ht]
      exact hparse f [])]
    rfl

/-! ## The bound on the nesting of the JSON reader -/

theorem skipWs_length (cs : List Char) : (skipWs cs).length ≤ cs.length := by
  induction cs with
  | nil => simp [skipWs]
  | cons c cs ih =>
    unfold skipWs
    split
    · simp only [List.length_cons]
      omega
    · exact le_refl _

theorem parseString_length_aux : ∀ (n : Nat) (cs : List Char), cs.length ≤ n →
    ∀ k r, parseString cs = some (k, r) → r.length < cs.length := by
  intro n
  induction n with
  | zero =>
    intro cs hlen k r h
    have hcs : cs = [] := List.length_eq_zero.mp (Nat.le_zero.mp hlen)
    subst hcs
    simp [parseString] at h
  | succ n ih =>
    intro cs hlen k r h
    rw [parseString.eq_def] at h
    cases cs with
    | nil => simp at h
    | cons c r0 =>
      simp only [List.length_cons] at hlen ⊢
      simp only [] at h
      split_ifs at h with h1 h2 h3
      · simp only [Option.some.injEq, Prod.mk.injEq] at h
        rw [← h.2]
        omega
      · cases r0 with
        | nil => simp at h
        | cons e r1 =>
          simp only [List.length_cons] at hlen ⊢
          simp only [] at h
          split_ifs at h with h4
          · match r1, h with
            | a :: b :: x :: y :: r2, h =>
              simp only [List.length_cons] at hlen ⊢
              simp only [] at h
              split at h
              · obtain ⟨p, hp, hpe⟩ := Option.map_eq_some'.mp h
                have := ih r2 (by omega) p.1 p.2 hp
                simp only [Prod.mk.injEq] at hpe
                rw [← hpe.2]
                omega
              · simp at h
            | [], h => simp at h
            | [_], h => simp at h
            | [_, _], h => simp at h
            | [_, _, _], h => simp at h
          · split at h
            · obtain ⟨p, hp, hpe⟩ := Option.map_eq_some'.mp h
              have := ih r1 (by omega) p.1 p.2 hp
              simp only [Prod.mk.injEq] at hpe
              rw [← hpe.2]
              omega
            · simp at h
      · obtain ⟨p, hp, hpe⟩ := Option.map_eq_some'.mp h
        have := ih r0 (by omega) p.1 p.2 hp
        simp only [Prod.mk.injEq] at hpe
        rw [← hpe.2]
        omega

theorem parseString_length (cs : List Char) (k r : List Char)
    (h : parseString cs = some (k, r)) : r.length < cs.length :=
  parseString_length_aux cs.length cs (le_refl _) k r h


theorem readDigits_length (cs : List Char) :
    ∀ acc cnt, (readDigits cs acc cnt).2.2.length ≤ cs.length := by
  induction cs with
  | nil => intro acc cnt; simp [readDigits]
  | cons c cs ih =>
    intro acc cnt
    unfold readDigits
    split
    · have := ih (acc * 10 + digitVal c) (cnt + 1)
      simp only [List.length_cons]
      omega
    · exact le_refl _

theorem readInt_length (cs : List Char) (n : Nat) (r : List Char)
    (h : readInt cs = some (n, r)) : r.length < cs.length := by
  cases cs with
  | nil => simp [readInt] at h
  | cons c cs =>
    unfold readInt at h
    simp only [] at h
    simp only [List.length_cons]
    split_ifs at h with h1 h2
    · simp only [Option.some.injEq, Prod.mk.injEq] at h
      rw [← h.2]
      omega
    · simp only [Option.some.injEq, Prod.mk.injEq] at h
      have := readDigits_length cs (digitVal c) 0
      rw [← h.2]
      omega

theorem readFrac_length (n : Nat) (cs : List Char) (m k : Nat) (r : List Char)
    (h : readFrac n cs = some (m, k, r)) : r.length ≤ cs.length := by
  cases cs with
  | nil =>
    simp only [readFrac, Option.some.injEq, Prod.mk.injEq] at h
    rw [← h.2.2]
  | cons c cs =>
    unfold readFrac at h
    simp only [] at h
    split_ifs at h with h1
    · cases cs with
      | nil => simp at h
      | cons d ds =>
        simp only [] at h
        split_ifs at h with h2
        simp only [Option.some.injEq] at h
        have := readDigits_length (d :: ds) n 0
        rw [h] at this
        simp only [List.length_cons] at this ⊢
        omega
    · simp only [Option.some.injEq, Prod.mk.injEq] at h
      rw [← h.2.2]

theorem readExpDigits_length (cs : List Char) (n : Nat) (r : List Char)
    (h : readExpDigits cs = some (n, r)) : r.length ≤ cs.length := by
  cases cs with
  | nil => simp [readExpDigits] at h
  | cons d ds =>
    unfold readExpDigits at h
    simp only [] at h
    split_ifs at h with h1
    simp only [Option.some.injEq, Prod.mk.injEq] at h
    have := readDigits_length (d :: ds) 0 0
    rw [← h.2]
    exact this

theorem readExp_length (cs : List Char) (e : Int) (r : List Char)
    (h : readExp cs = some (e, r)) : r.length ≤ cs.length := by
  cases cs with
  | nil =>
    simp only [readExp, Option.some.injEq, Prod.mk.injEq] at h
    rw [← h.2]
  | cons c cs =>
    unfold readExp at h
    simp only [] at h
    split_ifs at h with h1
    · cases cs with
      | nil => simp at h
      | cons s ds =>
        simp only [] at h
        simp only [List.length_cons]
        split_ifs at h with h2 h3
        · obtain ⟨p, hp, hpe⟩ := Option.map_eq_some'.mp h
          have := readExpDigits_length ds p.1 p.2 hp
          simp only [Prod.mk.injEq] at hpe
          rw [← hpe.2]
          omega
        · obtain ⟨p, hp, hpe⟩ := Option.map_eq_some'.mp h
          have := readExpDigits_length ds p.1 p.2 hp
          simp only [Prod.mk.injEq] at hpe
          rw [← hpe.2]
          omega
        · obtain ⟨p, hp, hpe⟩ := Option.map_eq_some'.mp h
          have := readExpDigits_length (s :: ds) p.1 p.2 hp
          simp only [Prod.mk.injEq] at hpe
          rw [← hpe.2]
          simp only [List.length_cons] at this
          omega
    · simp only [Option.some.injEq, Prod.mk.injEq] at h
      rw [← h.2]

theorem readUnsigned_length (neg : Bool) (cs : List Char) (d : Decimal) (r : List Char)
    (h : readUnsigned neg cs = some (d, r)) : r.length < cs.length := by
  unfold readUnsigned at h
  cases h1 : readInt cs with
  | none => simp [h1] at h
  | some p1 =>
    obtain ⟨n, r1⟩ := p1
    simp only [h1] at h
    cases h2 : readFrac n r1 with
    | none => simp [h2] at h
    | some p2 =>
      obtain ⟨m, k, r2⟩ := p2
      simp only [h2] at h
      cases h3 : readExp r2 with
      | none => simp [h3] at h
      | some p3 =>
        obtain ⟨e, r3⟩ := p3
        simp only [h3, Option.some.injEq, Prod.mk.injEq] at h
        have a1 := readInt_length cs n r1 h1
        have a2 := readFrac_length n r1 m k r2 h2
        have a3 := readExp_length r2 e r3 h3
        rw [← h.2]
        omega

theorem parseNumber_length (cs : List Char) (d : Decimal) (r : List Char)
    (h : parseNumber cs = some (d, r)) : r.length < cs.length := by
  cases cs with
  | nil => simp [parseNumber] at h
  | cons c cs =>
    unfold parseNumber at h
    simp only [] at h
    split_ifs at h with h1
    · have := readUnsigned_length true cs d r h
      simp only [List.length_cons]
      omega
    · exact readUnsigned_length false (c :: cs) d r h

theorem parseLiteral_length (cs : List Char) (v : JsValue) (r : List Char)
    (h : parseLiteral cs = some (v, r)) : r.length < cs.length := by
  unfold parseLiteral at h
  split at h
  · simp only [Option.some.injEq, Prod.mk.injEq] at h
    rw [← h.2]
    simp only [List.length_cons]
    omega
  · simp only [Option.some.injEq, Prod.mk.injEq] at h
    rw [← h.2]
    simp only [List.length_cons]
    omega
  · simp only [Option.some.injEq, Prod.mk.injEq] at h
    rw [← h.2]
    simp only [List.length_cons]
    omega
  · simp at h


theorem parse_fuel (f : Nat) :
    (∀ cs v r, parseValue f cs = some (v, r) →
      r.length < cs.length ∧ ∀ g, cs.length - r.length ≤ g → parseValue g cs = some (v, r)) ∧
    (∀ cs vs r, parseElems f cs = some (vs, r) →
      r.length < cs.length ∧ ∀ g, cs.length - r.length ≤ g → parseElems g cs = some (vs, r)) ∧
    (∀ cs ms r, parseMembers f cs = some (ms, r) →
      r.length < cs.length ∧
        ∀ g, cs.length - r.length ≤ g → parseMembers g cs = some (ms, r)) := by
  induction f with
  | zero =>
    refine ⟨?_, ?_, ?_⟩ <;> intro cs v r h
    · simp [parseValue] at h
    · simp [parseElems] at h
    · simp [parseMembers] at h
  | succ f ih =>
    obtain ⟨ihv, ihe, ihm⟩ := ih
    refine ⟨?_, ?_, ?_⟩
    · intro cs v r h
      cases cs with
      | nil => simp [parseValue] at h
      | cons c r0 =>
        rw [parseValue.eq_3] at h
        simp only [List.length_cons]
        by_cases h1 : c = quote
        · rw [if_pos h1] at h
          obtain ⟨p, hp, hpe⟩ := Option.map_eq_some'.mp h
          have hl := parseString_length r0 p.1 p.2 hp
          simp only [Prod.mk.injEq] at hpe
          rw [← hpe.2]
          refine ⟨by omega, fun g hg => ?_⟩
          obtain ⟨g', rfl⟩ : ∃ g', g = g' + 1 := ⟨g - 1, by omega⟩
          rw [parseValue.eq_3, if_pos h1, hpe.2]
          exact h
        · rw [if_neg h1] at h
          by_cases h2 : c = '-' ∨ isDigit c = true
          · rw [if_pos h2] at h
            obtain ⟨p, hp, hpe⟩ := Option.map_eq_some'.mp h
            have hl := parseNumber_length (c :: r0) p.1 p.2 hp
            simp only [Prod.mk.injEq] at hpe
            simp only [List.length_cons] at hl
            rw [← hpe.2]
            refine ⟨by omega, fun g hg => ?_⟩
            obtain ⟨g', rfl⟩ : ∃ g', g = g' + 1 := ⟨g - 1, by omega⟩
            rw [parseValue.eq_3, if_neg h1, if_pos h2, hpe.2]
            exact h
          · rw [if_neg h2] at h
            by_cases h3 : c = '['
            · rw [if_pos h3] at h
              have hsl := skipWs_length r0
              cases hsk : skipWs r0 with
              | nil => simp [hsk] at h
              | cons d r1 =>
                rw [hsk] at hsl
                simp only [List.length_cons] at hsl
                simp only [hsk] at h
                by_cases h4 : d = ']'
                · rw [if_pos h4] at h
                  simp only [Option.some.injEq, Prod.mk.injEq] at h
                  rw [← h.2]
                  refine ⟨by omega, fun g hg => ?_⟩
                  obtain ⟨g', rfl⟩ : ∃ g', g = g' + 1 := ⟨g - 1, by omega⟩
                  rw [parseValue.eq_3, if_neg h1, if_neg h2, if_pos h3]
                  simp only [hsk, if_pos h4, h.1]
                · rw [if_neg h4] at h
                  obtain ⟨p, hp, hpe⟩ := Option.map_eq_some'.mp h
                  obtain ⟨hl, hfuel⟩ := ihe (d :: r1) p.1 p.2 hp
                  simp only [Prod.mk.injEq] at hpe
                  simp only [List.length_cons] at hl hfuel
                  rw [← hpe.2]
                  refine ⟨by omega, fun g hg => ?_⟩
                  obtain ⟨g', rfl⟩ : ∃ g', g = g' + 1 := ⟨g - 1, by omega⟩
                  rw [parseValue.eq_3, if_neg h1, if_neg h2, if_pos h3]
                  simp only [hsk, if_neg h4, hfuel g' (by omega), Option.map_some', hpe.1]
            · rw [if_neg h3] at h
              by_cases h5 : c = lbrace
              · rw [if_pos h5] at h
                have hsl := skipWs_length r0
                cases hsk : skipWs r0 with
                | nil => simp [hsk] at h
                | cons d r1 =>
                  rw [hsk] at hsl
                  simp only [List.length_cons] at hsl
                  simp only [hsk] at h
                  by_cases h4 : d = rbrace
                  · rw [if_pos h4] at h
                    simp only [Option.some.injEq, Prod.mk.injEq] at h
                    rw [← h.2]
                    refine ⟨by omega, fun g hg => ?_⟩
                    obtain ⟨g', rfl⟩ : ∃ g', g = g' + 1 := ⟨g - 1, by omega⟩
                    rw [parseValue.eq_3, if_neg h1, if_neg h2, if_neg h3, if_pos h5]
                    simp only [hsk, if_pos h4, h.1]
                  · rw [if_neg h4] at h
                    obtain ⟨p, hp, hpe⟩ := Option.map_eq_some'.mp h
                    obtain ⟨hl, hfuel⟩ := ihm (d :: r1) p.1 p.2 hp
                    simp only [Prod.mk.injEq] at hpe
                    simp only [List.length_cons] at hl hfuel
                    rw [← hpe.2]
                    refine ⟨by omega, fun g hg => ?_⟩
                    obtain ⟨g', rfl⟩ : ∃ g', g = g' + 1 := ⟨g - 1, by omega⟩
                    rw [parseValue.eq_3, if_neg h1, if_neg h2, if_neg h3, if_pos h5]
                    simp only [hsk, if_neg h4, hfuel g' (by omega), Option.map_some', hpe.1]
              · rw [if_neg h5] at h
                have hl := parseLiteral_length (c :: r0) v r h
                simp only [List.length_cons] at hl
                refine ⟨hl, fun g hg => ?_⟩
                obtain ⟨g', rfl⟩ : ∃ g', g = g' + 1 := ⟨g - 1, by omega⟩
                rw [parseValue.eq_3, if_neg h1, if_neg h2, if_neg h3, if_neg h5]
                exact h
    · intro cs vs r h
      rw [parseElems.eq_2] at h
      cases hv : parseValue f cs with
      | none => simp [hv] at h
      | some p1 =>
        obtain ⟨v, r1⟩ := p1
        obtain ⟨hl1, hfuel1⟩ := ihv cs v r1 hv
        simp only [hv] at h
        have hsl := skipWs_length r1
        cases hsk : skipWs r1 with
        | nil => simp [hsk] at h
        | cons d r2 =>
          rw [hsk] at hsl
          simp only [List.length_cons] at hsl
          simp only [hsk] at h
          by_cases h1 : d = ','
          · rw [if_pos h1] at h
            obtain ⟨p, hp, hpe⟩ := Option.map_eq_some'.mp h
            obtain ⟨hl2, hfuel2⟩ := ihe (skipWs r2) p.1 p.2 hp
            have hsl2 := skipWs_length r2
            simp only [Prod.mk.injEq] at hpe
            rw [← hpe.2]
            refine ⟨by omega, fun g hg => ?_⟩
            obtain ⟨g', rfl⟩ : ∃ g', g = g' + 1 := ⟨g - 1, by omega⟩
            rw [parseElems.eq_2, hfuel1 g' (by omega)]
            simp only [hsk, if_pos h1, hfuel2 g' (by omega), Option.map_some', hpe.1]
          · rw [if_neg h1] at h
            by_cases h2 : d = ']'
            · rw [if_pos h2] at h
              simp only [Option.some.injEq, Prod.mk.injEq] at h
              rw [← h.2]
              refine ⟨by omega, fun g hg => ?_⟩
              obtain ⟨g', rfl⟩ : ∃ g', g = g' + 1 := ⟨g - 1, by omega⟩
              rw [parseElems.eq_2, hfuel1 g' (by omega)]
              simp only [hsk, if_neg h1, if_pos h2, h.1]
            · rw [if_neg h2] at h
              simp at h
    · intro cs ms r h
      cases cs with
      | nil => simp [parseMembers] at h
      | cons c r0 =>
        rw [parseMembers.eq_3] at h
        simp only [List.length_cons]
        by_cases h1 : c = quote
        · rw [if_pos h1] at h
          cases hs : parseString r0 with
          | none => simp [hs] at h
          | some p1 =>
            obtain ⟨k, r1⟩ := p1
            have hl1 := parseString_length r0 k r1 hs
            simp only [hs] at h
            have hsl1 := skipWs_length r1
            cases hsk1 : skipWs r1 with
            | nil => simp [hsk1] at h
            | cons d r2 =>
              rw [hsk1] at hsl1
              simp only [List.length_cons] at hsl1
              simp only [hsk1] at h
              by_cases h2 : d = ':'
              · rw [if_pos h2] at h
                have hsl2 := skipWs_length r2
                cases hv : parseValue f (skipWs r2) with
                | none => simp [hv] at h
                | some p2 =>
                  obtain ⟨v, r3⟩ := p2
                  obtain ⟨hl3, hfuel3⟩ := ihv (skipWs r2) v r3 hv
                  simp only [hv] at h
                  have hsl3 := skipWs_length r3
                  cases hsk3 : skipWs r3 with
                  | nil => simp [hsk3] at h
                  | cons e r4 =>
                    rw [hsk3] at hsl3
                    simp only [List.length_cons] at hsl3
                    simp only [hsk3] at h
                    by_cases h3 : e = ','
                    · rw [if_pos h3] at h
                      obtain ⟨p, hp, hpe⟩ := Option.map_eq_some'.mp h
                      obtain ⟨hl4, hfuel4⟩ := ihm (skipWs r4) p.1 p.2 hp
                      have hsl4 := skipWs_length r4
                      simp only [Prod.mk.injEq] at hpe
                      rw [← hpe.2]
                      refine ⟨by omega, fun g hg => ?_⟩
                      obtain ⟨g', rfl⟩ : ∃ g', g = g' + 1 := ⟨g - 1, by omega⟩
                      rw [parseMembers.eq_3, if_pos h1]
                      simp only [hs, hsk1, if_pos h2, hfuel3 g' (by omega), hsk3, if_pos h3,
                        hfuel4 g' (by omega), Option.map_some', hpe.1]
                    · rw [if_neg h3] at h
                      by_cases h4 : e = rbrace
                      · rw [if_pos h4] at h
                        simp only [Option.some.injEq, Prod.mk.injEq] at h
                        rw [← h.2]
                        refine ⟨by omega, fun g hg => ?_⟩
                        obtain ⟨g', rfl⟩ : ∃ g', g = g' + 1 := ⟨g - 1, by omega⟩
                        rw [parseMembers.eq_3, if_pos h1]
                        simp only [hs, hsk1, if_pos h2, hfuel3 g' (by omega), hsk3, if_neg h3,
                          if_pos h4, h.1]
                      · rw [if_neg h4] at h
                        simp at h
              · rw [if_neg h2] at h
                simp at h
        · rw [if_neg h1] at h
          simp at h

/-- The bound on the nesting in `JSON.parse` is large enough: a text that some
bound reads as one JSON value followed by white space only is read so by
`JSON.parse`. -/
theorem parse_of_fuel (text : String) (f : Nat) (v : JsValue) (r : List Char)
    (h : parseValue f (skipWs text.data) = some (v, r)) (hr : skipWs r = []) :
    JSON.parse text = .ok v := by
  obtain ⟨hl, hfuel⟩ := (parse_fuel f).1 _ v r h
  have hsl := skipWs_length text.data
  unfold JSON.parse
  rw [hfuel (text.data.length + 1) (by omega)]
  simp [hr]

/-- A `SyntaxError` of `JSON.parse` does not come from the bound on the nesting:
no larger bound reads the text as a JSON value followed by white space only. -/
theorem parse_error_genuine (text : String) (h : JSON.parse text = .error .syntaxError) :
    ∀ f v r, parseValue f (skipWs text.data) = some (v, r) → skipWs r ≠ [] := by
  intro f v r hv hr
  rw [parse_of_fuel text f v r hv hr] at h
  cases h


/-! ## Loading the stored value -/

theorem LineItem.toJs_injective (a b : LineItem) (h : a.toJs = b.toJs) : a = b := by
  obtain ⟨i1, n1, p1, q1⟩ := a
  obtain ⟨i2, n2, p2, q2⟩ := b
  simp only [LineItem.toJs, Decimal.ofInt, JsValue.obj.injEq, List.cons.injEq, Prod.mk.injEq,
    JsValue.str.injEq, JsValue.num.injEq, Decimal.mk.injEq, true_and, and_true] at h
  obtain ⟨h1, h2, h3, h4⟩ := h
  subst h1 h2 h3 h4
  rfl

theorem cartToJs_injective (a b : List LineItem) (h : cartToJs a = cartToJs b) : a = b := by
  simp only [cartToJs, JsValue.arr.injEq] at h
  exact List.map_injective_iff.mpr (fun x y hxy => LineItem.toJs_injective x y hxy) h

theorem loadCart_absent : loadCart none = .ok (cartToJs []) := by rfl

theorem loadCart_saved (cart : List LineItem) :
    loadCart (some (JSON.stringify (cartToJs cart))) = .ok (cartToJs cart) := by
  unfold loadCart
  simp only [Option.getD_some, parse_stringify_cart]
  rfl

theorem loadCart_error (text : String) (e : JsError) (h : JSON.parse text = .error e) :
    loadCart (some text) = .error e := by
  unfold loadCart
  simp only [Option.getD_some, h]


/-! ## Invariants of the cart operations -/

theorem find_append_found (id : String) (pre : List LineItem) (item : LineItem)
    (hid : item.id = id) :
    ∃ found, (pre ++ [item]).find? (fun p => p.id == id) = some found := by
  cases h : (pre ++ [item]).find? (fun p => p.id == id) with
  | some found => exact ⟨found, rfl⟩
  | none =>
    exact absurd hid ((find_none_iff _ _).mp h item (by simp))

theorem addToCart_new (s : State) (id name : String) (price : Decimal)
    (habsent : ∀ item ∈ s.shoppingCart, item.id ≠ id) :
    (addToCart s id name price).shoppingCart
      = s.shoppingCart ++ [{ id := id, name := name, price := price, quantity := 1 }] := by
  rw [addToCart_cart, (find_none_iff _ _).mpr habsent]

theorem addToCart_again (s : State) (id name : String) (price : Decimal)
    (pre : List LineItem) (item : LineItem) (hcart : s.shoppingCart = pre ++ [item])
    (hid : item.id = id) (hpre : ∀ p ∈ pre, p.id ≠ id) :
    (addToCart s id name price).shoppingCart
      = pre ++ [{ item with quantity := item.quantity + 1 }] := by
  obtain ⟨found, hfound⟩ := find_append_found id pre item hid
  rw [addToCart_cart, hcart, hfound]
  exact addToFound_append id 1 pre [] item hpre hid

theorem addMany_again (id : String) (args : List (String × Decimal)) :
    ∀ (s : State) (pre : List LineItem) (item : LineItem), s.shoppingCart = pre ++ [item] →
      item.id = id → (∀ p ∈ pre, p.id ≠ id) →
      (addMany id s args).shoppingCart
        = pre ++ [{ item with quantity := item.quantity + (args.length : Int) }] := by
  induction args with
  | nil =>
    intro s pre item hcart _ _
    simp [addMany, hcart]
  | cons a rest ih =>
    intro s pre item hcart hid hpre
    obtain ⟨name, price⟩ := a
    have hstep := addToCart_again s id name price pre item hcart hid hpre
    have := ih (addToCart s id name price) pre { item with quantity := item.quantity + 1 }
      hstep hid hpre
    simp only [addMany, this, List.length_cons, Nat.cast_add, Nat.cast_one]
    congr 3
    ring

theorem mem_addToFound (id : String) (delta : Int) (cart : List LineItem) (found : LineItem)
    (hfound : cart.find? (fun p => p.id == id) = some found) :
    ∀ p ∈ addToFound id delta cart,
      p ∈ cart ∨ p = { found with quantity := found.quantity + delta } := by
  induction cart with
  | nil => simp at hfound
  | cons item rest ih =>
    intro p hp
    by_cases h : item.id = id
    · have hf : item = found := by
        rw [List.find?_cons_of_pos _ (by simpa using h)] at hfound
        exact Option.some.inj hfound
      have hadd : addToFound id delta (item :: rest)
          = { item with quantity := item.quantity + delta } :: rest := by
        simp [addToFound, h]
      rw [hadd] at hp
      rcases List.mem_cons.mp hp with hp | hp
      · right
        rw [hp, hf]
      · left
        exact List.mem_cons_of_mem _ hp
    · have hadd : addToFound id delta (item :: rest) = item :: addToFound id delta rest := by
        simp [addToFound, h]
      have hfound2 : rest.find? (fun p => p.id == id) = some found := by
        rw [List.find?_cons_of_neg _ (by simpa using h)] at hfound
        exact hfound
      rw [hadd] at hp
      rcases List.mem_cons.mp hp with hp | hp
      · left
        rw [hp]
        exact List.mem_cons_self _ _
      · rcases ih hfound2 p hp with h1 | h1
        · left
          exact List.mem_cons_of_mem _ h1
        · right
          exact h1

theorem find_of_mem_unique (cart : List LineItem) (item : LineItem) (hu : UniqueIds cart)
    (hmem : item ∈ cart) : cart.find? (fun p => p.id == item.id) = some item := by
  induction cart with
  | nil => simp at hmem
  | cons first rest ih =>
    unfold UniqueIds at hu
    rw [List.map_cons, List.nodup_cons] at hu
    rcases List.mem_cons.mp hmem with h | h
    · subst h
      simp [List.find?]
    · have hne : first.id ≠ item.id := by
        intro heq
        exact hu.1 (heq ▸ List.mem_map_of_mem LineItem.id h)
      have hb : (first.id == item.id) = false := by simp [hne]
      simp only [List.find?, hb]
      exact ih hu.2 h

theorem uniqueIds_filter (cart : List LineItem) (p : LineItem → Bool) (h : UniqueIds cart) :
    UniqueIds (cart.filter p) :=
  List.Nodup.sublist (List.Sublist.map _ (List.filter_sublist _)) h

theorem uniqueIds_addToFound (id : String) (delta : Int) (cart : List LineItem)
    (h : UniqueIds cart) : UniqueIds (addToFound id delta cart) := by
  unfold UniqueIds
  rw [map_id_addToFound]
  exact h

theorem uniqueIds_addToCart (s : State) (id name : String) (price : Decimal)
    (h : UniqueIds s.shoppingCart) : UniqueIds (addToCart s id name price).shoppingCart := by
  rw [addToCart_cart]
  cases hf : s.shoppingCart.find? (fun item => item.id == id) with
  | some found => exact uniqueIds_addToFound id 1 _ h
  | none =>
    have hno := (find_none_iff _ _).mp hf
    unfold UniqueIds at h ⊢
    simp only [List.map_append, List.map_cons, List.map_nil]
    refine List.Nodup.append h (List.nodup_singleton _) ?_
    intro x hx hx2
    rw [List.mem_singleton] at hx2
    obtain ⟨item, hitem, hid⟩ := List.mem_map.mp hx
    exact hno item hitem (hid.trans hx2)

theorem uniqueIds_changeQuantity (s : State) (id : String) (delta : Int)
    (h : UniqueIds s.shoppingCart) : UniqueIds (changeQuantity s id delta).state.shoppingCart := by
  rw [changeQuantity_cart]
  cases s.shoppingCart.find? (fun p => p.id == id) with
  | none => exact h
  | some item =>
    by_cases hq : item.quantity + delta < 1
    · simp only [hq, if_true]
      exact uniqueIds_filter _ _ h
    · simp only [hq, if_false]
      exact uniqueIds_addToFound id delta _ h

theorem quantities_addToFound (id : String) (delta : Int) (cart : List LineItem)
    (found : LineItem) (hfound : cart.find? (fun p => p.id == id) = some found)
    (hq : 1 ≤ found.quantity + delta) (h : QuantitiesPositive cart) :
    QuantitiesPositive (addToFound id delta cart) := by
  intro p hp
  rcases mem_addToFound id delta cart found hfound p hp with h1 | h1
  · exact h p h1
  · rw [h1]
    exact hq

theorem quantities_addToCart (s : State) (id name : String) (price : Decimal)
    (h : QuantitiesPositive s.shoppingCart) :
    QuantitiesPositive (addToCart s id name price).shoppingCart := by
  rw [addToCart_cart]
  cases hf : s.shoppingCart.find? (fun item => item.id == id) with
  | some found =>
    have hfq : 1 ≤ found.quantity := h found (List.mem_of_find?_eq_some hf)
    exact quantities_addToFound id 1 _ found hf (by omega) h
  | none =>
    intro p hp
    rcases List.mem_append.mp hp with h1 | h1
    · exact h p h1
    · rw [List.mem_singleton] at h1
      rw [h1]

theorem quantities_filter (cart : List LineItem) (p : LineItem → Bool)
    (h : QuantitiesPositive cart) : QuantitiesPositive (cart.filter p) :=
  fun item hitem => h item (List.mem_of_mem_filter hitem)

theorem quantities_changeQuantity (s : State) (id : String) (delta : Int)
    (h : QuantitiesPositive s.shoppingCart) :
    QuantitiesPositive (changeQuantity s id delta).state.shoppingCart := by
  rw [changeQuantity_cart]
  cases hf : s.shoppingCart.find? (fun p => p.id == id) with
  | none => exact h
  | some item =>
    by_cases hq : item.quantity + delta < 1
    · simp only [hq, if_true]
      exact quantities_filter _ _ h
    · simp only [hq, if_false]
      exact quantities_addToFound id delta _ item hf (by omega) h

/-- A stored value that is the serialization of a cart with positive quantities
holds positive quantities only. -/
theorem stored_quantities_of_saved (cart : List LineItem) (h : QuantitiesPositive cart) :
    StoredQuantitiesPositive (some (JSON.stringify (cartToJs cart))) := by
  intro cart2 hload
  rw [loadCart_saved] at hload
  injection hload with hjs
  rw [← cartToJs_injective cart cart2 hjs]
  exact h

theorem consistent_of_saved (s : State)
    (h : s.localStorage = some (JSON.stringify (cartToJs s.shoppingCart))) : Consistent s := by
  refine ⟨h, ?_⟩
  rw [h]
  exact loadCart_saved _

/-! ## Payment -/

theorem round_eq (x : ℚ) (z : Int) (h1 : (z : ℚ) ≤ x + 1 / 2) (h2 : x + 1 / 2 < (z : ℚ) + 1) :
    Math.round x = z := by
  unfold Math.round
  exact Int.floor_eq_iff.mpr ⟨h1, h2⟩

theorem payNow_cart (s : State) : (payNow s).state.shoppingCart = s.shoppingCart := by
  unfold payNow
  simp only []
  split
  · exact updateCartTotals_cart s
  · split <;> exact updateCartTotals_cart s

theorem payNow_storage (s : State) : (payNow s).state.localStorage = s.localStorage := by
  unfold payNow
  simp only []
  split
  · exact updateCartTotals_storage s
  · split <;> exact updateCartTotals_storage s

/-- On a page with the three summary elements `payNow` pays the total of the
current cart: it opens the widget with that total in paise when the total is
positive, and stops at the guard after its alert otherwise. -/
theorem payNow_with_summary (s : State) (a b c : ℚ) (h1 : s.dom.cartSubtotal = some a)
    (h2 : s.dom.cartShipping = some b) (h3 : s.dom.cartTotal = some c) :
    (payNow s).result =
      (if subtotalOf s.shoppingCart + shippingOf (subtotalOf s.shoppingCart) ≤ 0 then some none
      else some (some { key := RAZORPAY_KEY,
                        amount := Math.round
                          ((subtotalOf s.shoppingCart + shippingOf (subtotalOf s.shoppingCart)) * 100),
                        currency := "INR" })) ∧
    (subtotalOf s.shoppingCart + shippingOf (subtotalOf s.shoppingCart) ≤ 0 →
      (payNow s).state.alerts = s.alerts ++ [emptyCartNotice]) := by
  obtain ⟨_, hg, _, h4⟩ := updateCartTotals_computed s a h1
  have hres := (h4 (by rw [h2]; rfl) (by rw [h3]; rfl)).2
  have halerts : (updateCartTotals s).state.alerts = s.alerts := by
    unfold updateCartTotals
    simp [h1, h2, h3]
  unfold payNow
  simp only [hres, hg]
  refine ⟨?_, fun hle => ?_⟩
  · split <;> rfl
  · simp only [hle, if_true, halerts]

/-- On a page without the subtotal element `payNow` works with the global
`grandTotal` as it stands. -/
theorem payNow_without_subtotal (s : State) (h : s.dom.cartSubtotal = none) :
    (payNow s).result =
      if s.grandTotal ≤ 0 then some none
      else some (some { key := RAZORPAY_KEY, amount := Math.round (s.grandTotal * 100),
                        currency := "INR" }) := by
  unfold payNow updateCartTotals
  simp only [h]
  split <;> rfl

/-- On a page with the subtotal element and no shipping element `payNow` raises
a `TypeError` and opens no widget. -/
theorem payNow_missing_shipping (s : State) (a : ℚ) (h1 : s.dom.cartSubtotal = some a)
    (h2 : s.dom.cartShipping = none) : (payNow s).result = none := by
  unfold payNow updateCartTotals
  simp [h1, h2]

theorem shoe_subtotal : subtotalOf [shoe] = 600 := by
  norm_num [subtotalOf, shoe, Decimal.toRat, Decimal.ofInt]

theorem shoe_total : subtotalOf [shoe] + shippingOf (subtotalOf [shoe]) = 650 := by
  rw [shoe_subtotal]
  norm_num [shippingOf, SHIPPING_COST]

/-! ## The claims -/

/-- C2: in a cart with no item of a given id (the empty cart among them), `n`
consecutive calls of `addToCart` with that id, `n` at least 1, with any names
and prices, leave exactly one line item with that id, of quantity `n`, behind
the items that were there before, which are unchanged and in their order. -/
theorem addToCart_repeated (s : State) (id : String) (args : List (String × Decimal))
    (n : Nat) (hn : 1 ≤ n) (hlen : args.length = n)
    (habsent : ∀ item ∈ s.shoppingCart, item.id ≠ id) :
    ∃ item : LineItem, item.id = id ∧ item.quantity = (n : Int) ∧
      (addMany id s args).shoppingCart = s.shoppingCart ++ [item] ∧
      (addMany id s args).shoppingCart.filter (fun p => p.id == id) = [item] := by
  cases args with
  | nil =>
    simp at hlen
    omega
  | cons a rest =>
    obtain ⟨name, price⟩ := a
    have hfirst := addToCart_new s id name price habsent
    have hall := addMany_again id rest (addToCart s id name price) s.shoppingCart
      { id := id, name := name, price := price, quantity := 1 } hfirst rfl habsent
    have hq : (1 : Int) + (rest.length : Int) = (n : Int) := by
      rw [← hlen, List.length_cons]
      push_cast
      ring
    refine ⟨{ id := id, name := name, price := price, quantity := 1 + (rest.length : Int) },
      rfl, hq, ?_, ?_⟩
    · simpa [addMany] using hall
    · have hcart : (addMany id s ((name, price) :: rest)).shoppingCart = s.shoppingCart ++
          [{ id := id, name := name, price := price, quantity := 1 + (rest.length : Int) }] := by
        simpa [addMany] using hall
      rw [hcart, List.filter_append]
      have hnone : s.shoppingCart.filter (fun p => p.id == id) = [] := by
        rw [List.filter_eq_nil_iff]
        intro p hp
        simpa using habsent p hp
      rw [hnone]
      simp

/-- C2 for two calls with the id `sku2` on a cart that holds the shoe. -/
theorem addToCart_repeated_witness :
    1 ≤ 2 ∧ [("Sandal", sandal.price), ("Other name", shoe.price)].length = 2 ∧
    (∀ item ∈ (State.fresh [shoe] none Dom.checkout).shoppingCart, item.id ≠ "sku2") ∧
    ∃ item : LineItem, item.id = "sku2" ∧ item.quantity = ((2 : Nat) : Int) ∧
      (addMany "sku2" (State.fresh [shoe] none Dom.checkout)
          [("Sandal", sandal.price), ("Other name", shoe.price)]).shoppingCart
        = (State.fresh [shoe] none Dom.checkout).shoppingCart ++ [item] ∧
      (addMany "sku2" (State.fresh [shoe] none Dom.checkout)
          [("Sandal", sandal.price), ("Other name", shoe.price)]).shoppingCart.filter
            (fun p => p.id == "sku2") = [item] :=
  have habsent : ∀ item ∈ (State.fresh [shoe] none Dom.checkout).shoppingCart,
      item.id ≠ "sku2" := by
    intro item hitem
    have hi : item = shoe := by simpa [State.fresh] using hitem
    subst hi
    decide
  ⟨by decide, rfl, habsent,
    addToCart_repeated (State.fresh [shoe] none Dom.checkout) "sku2"
      [("Sandal", sandal.price), ("Other name", shoe.price)] 2 (by decide) rfl habsent⟩

/-- C3: when the lookup by id finds an item of quantity `q` (in a cart with at
most one line per id: when the cart holds an item with that id and quantity
`q`), `changeQuantity(id, -q)` leaves a cart with no item of that id; for every
integer `delta` with `q + delta < 1` the call does what `removeItem(id)` does,
leaving the cart with the items of that id filtered out and every other item
unchanged in its order; and for an id absent from the cart `changeQuantity`
changes nothing. -/
theorem changeQuantity_removes (s : State) (id : String) (delta : Int) :
    (∀ item, s.shoppingCart.find? (fun p => p.id == id) = some item →
      ∀ p ∈ (changeQuantity s id (-item.quantity)).state.shoppingCart, p.id ≠ id) ∧
    (∀ item, s.shoppingCart.find? (fun p => p.id == id) = some item →
      item.quantity + delta < 1 →
        (changeQuantity s id delta).state.shoppingCart = (removeItem s id).state.shoppingCart ∧
        (changeQuantity s id delta).state.shoppingCart
          = s.shoppingCart.filter (fun p => p.id != id)) ∧
    (UniqueIds s.shoppingCart → ∀ item ∈ s.shoppingCart, item.id = id →
      s.shoppingCart.find? (fun p => p.id == id) = some item) ∧
    ((∀ item ∈ s.shoppingCart, item.id ≠ id) → changeQuantity s id delta = ⟨s, some ()⟩) := by
  refine ⟨?_, ?_, ?_, ?_⟩
  · intro item hfound p hp
    rw [changeQuantity_cart, hfound] at hp
    have hq : item.quantity + -item.quantity < 1 := by omega
    simp only [hq, if_true] at hp
    have := (List.mem_filter.mp hp).2
    simpa using this
  · intro item hfound hq
    rw [changeQuantity_cart, hfound, removeItem_cart]
    simp only [hq, if_true, and_self]
  · intro hu item hmem hid
    rw [← hid]
    exact find_of_mem_unique _ item hu hmem
  · intro habsent
    exact changeQuantity_absent s id delta ((find_none_iff _ _).mpr habsent)

/-- C3 for the sandal, of quantity 3, and a delta of -3. -/
theorem changeQuantity_removes_witness :
    (State.fresh [shoe, sandal] none Dom.checkout).shoppingCart.find?
        (fun p => p.id == "sku2") = some sandal ∧
    sandal.quantity + (-3) < 1 ∧
    (changeQuantity (State.fresh [shoe, sandal] none Dom.checkout) "sku2"
        (-3)).state.shoppingCart
      = (State.fresh [shoe, sandal] none Dom.checkout).shoppingCart.filter
          (fun p => p.id != "sku2") ∧
    (State.fresh [shoe, sandal] none Dom.checkout).shoppingCart.filter
        (fun p => p.id != "sku2") = [shoe] :=
  have hfound : (State.fresh [shoe, sandal] none Dom.checkout).shoppingCart.find?
      (fun p => p.id == "sku2") = some sandal := by rfl
  have hlt : sandal.quantity + (-3) < 1 := by decide
  ⟨hfound, hlt,
    ((changeQuantity_removes (State.fresh [shoe, sandal] none Dom.checkout) "sku2" (-3)).2.1
      sandal hfound hlt).2,
    by rfl⟩

/-- C4: at most one line item per product id is an invariant of the cart: it
holds for the empty cart and is kept by `addToCart`, by `changeQuantity` with
any integer delta, by `removeItem` and by the clearing of the cart after a
successful payment, for all arguments. -/
theorem uniqueIds_invariant (s : State) (id name : String) (price : Decimal) (delta : Int)
    (paymentId : String) (h : UniqueIds s.shoppingCart) :
    UniqueIds [] ∧
    UniqueIds (addToCart s id name price).shoppingCart ∧
    UniqueIds (changeQuantity s id delta).state.shoppingCart ∧
    UniqueIds (removeItem s id).state.shoppingCart ∧
    UniqueIds (handler s paymentId).shoppingCart := by
  refine ⟨List.nodup_nil, uniqueIds_addToCart s id name price h,
    uniqueIds_changeQuantity s id delta h, ?_, ?_⟩
  · rw [removeItem_cart]
    exact uniqueIds_filter _ _ h
  · rw [handler_cart]
    exact List.nodup_nil

/-- C4 on the cart of the shoe and the sandal. -/
theorem uniqueIds_invariant_witness :
    UniqueIds (State.fresh [shoe, sandal] none Dom.checkout).shoppingCart ∧
    UniqueIds (addToCart (State.fresh [shoe, sandal] none Dom.checkout) "sku2" "Sandal"
      sandal.price).shoppingCart ∧
    UniqueIds (changeQuantity (State.fresh [shoe, sandal] none Dom.checkout) "sku2"
      (-3)).state.shoppingCart :=
  have h : UniqueIds (State.fresh [shoe, sandal] none Dom.checkout).shoppingCart := by
    unfold UniqueIds
    decide
  ⟨h,
    (uniqueIds_invariant (State.fresh [shoe, sandal] none Dom.checkout) "sku2" "Sandal"
      sandal.price (-3) "pay_1" h).2.1,
    (uniqueIds_invariant (State.fresh [shoe, sandal] none Dom.checkout) "sku2" "Sandal"
      sandal.price (-3) "pay_1" h).2.2.1⟩

/-- C5: every line item in the cart and in the stored value has quantity at
least 1, as an invariant: it holds for the empty cart (nothing stored, or the
empty cart stored) and is kept by `addToCart`, by `changeQuantity` for every
integer delta, by `removeItem` and by the clearing after a successful payment;
an item whose quantity would drop below 1 is removed from the cart and from the
stored value instead of being saved. -/
theorem quantities_invariant (s : State) (id name : String) (price : Decimal) (delta : Int)
    (paymentId : String) (hcart : QuantitiesPositive s.shoppingCart)
    (hstore : StoredQuantitiesPositive s.localStorage) :
    (QuantitiesPositive [] ∧ StoredQuantitiesPositive none ∧
      StoredQuantitiesPositive (some (JSON.stringify (cartToJs [])))) ∧
    (QuantitiesPositive (addToCart s id name price).shoppingCart ∧
      StoredQuantitiesPositive (addToCart s id name price).localStorage) ∧
    (QuantitiesPositive (changeQuantity s id delta).state.shoppingCart ∧
      StoredQuantitiesPositive (changeQuantity s id delta).state.localStorage) ∧
    (QuantitiesPositive (removeItem s id).state.shoppingCart ∧
      StoredQuantitiesPositive (removeItem s id).state.localStorage) ∧
    (QuantitiesPositive (handler s paymentId).shoppingCart ∧
      StoredQuantitiesPositive (handler s paymentId).localStorage) ∧
    (∀ item, s.shoppingCart.find? (fun p => p.id == id) = some item →
      item.quantity + delta < 1 →
        (∀ p ∈ (changeQuantity s id delta).state.shoppingCart, p.id ≠ id) ∧
        (changeQuantity s id delta).state.localStorage
          = some (JSON.stringify (cartToJs (s.shoppingCart.filter (fun p => p.id != id))))) := by
  have hnil : QuantitiesPositive [] := fun item hitem => absurd hitem (List.not_mem_nil _)
  have hadd := quantities_addToCart s id name price hcart
  have hchg := quantities_changeQuantity s id delta hcart
  have hrem : QuantitiesPositive (removeItem s id).state.shoppingCart := by
    rw [removeItem_cart]
    exact quantities_filter _ _ hcart
  refine ⟨⟨hnil, ?_, stored_quantities_of_saved [] hnil⟩, ⟨hadd, ?_⟩, ⟨hchg, ?_⟩, ⟨hrem, ?_⟩,
    ⟨?_, ?_⟩, ?_⟩
  · intro cart hload
    rw [loadCart_absent] at hload
    injection hload with hjs
    rw [← cartToJs_injective [] cart hjs]
    exact hnil
  · rw [addToCart_storage]
    exact stored_quantities_of_saved _ hadd
  · cases hf : s.shoppingCart.find? (fun p => p.id == id) with
    | none =>
      rw [changeQuantity_absent s id delta hf]
      exact hstore
    | some item =>
      rw [changeQuantity_storage s id delta item hf]
      exact stored_quantities_of_saved _ hchg
  · rw [removeItem_storage]
    rw [removeItem_cart] at hrem
    exact stored_quantities_of_saved _ hrem
  · rw [handler_cart]
    exact hnil
  · rw [handler_storage]
    exact stored_quantities_of_saved [] hnil
  · intro item hf hq
    have hc : (changeQuantity s id delta).state.shoppingCart
        = s.shoppingCart.filter (fun p => p.id != id) := by
      rw [changeQuantity_cart, hf]
      simp only [hq, if_true]
    refine ⟨?_, ?_⟩
    · intro p hp
      rw [hc] at hp
      simpa using (List.mem_filter.mp hp).2
    · rw [changeQuantity_storage s id delta item hf, hc]

/-- C5 on the cart of the shoe and the sandal, with nothing stored. -/
theorem quantities_invariant_witness :
    QuantitiesPositive (State.fresh [shoe, sandal] none Dom.checkout).shoppingCart ∧
    StoredQuantitiesPositive (State.fresh [shoe, sandal] none Dom.checkout).localStorage ∧
    QuantitiesPositive
      (changeQuantity (State.fresh [shoe, sandal] none Dom.checkout) "sku1"
        (-1)).state.shoppingCart ∧
    StoredQuantitiesPositive
      (changeQuantity (State.fresh [shoe, sandal] none Dom.checkout) "sku1"
        (-1)).state.localStorage :=
  have hcart : QuantitiesPositive (State.fresh [shoe, sandal] none Dom.checkout).shoppingCart := by
    intro item hitem
    have hi : item = shoe ∨ item = sandal := by simpa [State.fresh] using hitem
    rcases hi with hi | hi <;> subst hi <;> decide
  have hstore :
      StoredQuantitiesPositive (State.fresh [shoe, sandal] none Dom.checkout).localStorage := by
    intro cart hload
    have hl : loadCart none = .ok (cartToJs cart) := hload
    rw [loadCart_absent] at hl
    injection hl with hjs
    rw [← cartToJs_injective [] cart hjs]
    exact fun item hitem => absurd hitem (List.not_mem_nil _)
  ⟨hcart, hstore,
    (quantities_invariant (State.fresh [shoe, sandal] none Dom.checkout) "sku1" "Shoe"
      shoe.price (-1) "pay_1" hcart hstore).2.2.1⟩

/-- C9: write-through consistency. When `addToCart`, `removeItem`, the
payment-success handler or a `changeQuantity` that finds its item is done, the
value under the storage key is the serialization of the cart in memory and
loading it gives that cart back; `changeQuantity` on an absent id changes
nothing, so that it keeps the consistency that held before. -/
theorem write_through (s : State) (id name : String) (price : Decimal) (delta : Int)
    (paymentId : String) :
    Consistent (addToCart s id name price) ∧
    Consistent (removeItem s id).state ∧
    (Consistent (handler s paymentId) ∧ (handler s paymentId).shoppingCart = []) ∧
    (∀ item, s.shoppingCart.find? (fun p => p.id == id) = some item →
      Consistent (changeQuantity s id delta).state) ∧
    ((∀ item ∈ s.shoppingCart, item.id ≠ id) → (changeQuantity s id delta).state = s) ∧
    (Consistent s → Consistent (changeQuantity s id delta).state) := by
  have hfound : ∀ item, s.shoppingCart.find? (fun p => p.id == id) = some item →
      Consistent (changeQuantity s id delta).state :=
    fun item hf => consistent_of_saved _ (changeQuantity_storage s id delta item hf)
  refine ⟨consistent_of_saved _ (addToCart_storage s id name price), ?_, ⟨?_, handler_cart _ _⟩,
    hfound, ?_, ?_⟩
  · apply consistent_of_saved
    rw [removeItem_storage, removeItem_cart]
  · apply consistent_of_saved
    rw [handler_storage, handler_cart]
  · intro habsent
    rw [changeQuantity_absent s id delta ((find_none_iff _ _).mpr habsent)]
  · intro hs
    cases hf : s.shoppingCart.find? (fun p => p.id == id) with
    | none =>
      rw [changeQuantity_absent s id delta hf]
      exact hs
    | some item => exact hfound item hf

/-- C10: round trip. For every cart, `saveCart` followed by the start-up load
gives the array of the records of that cart, and a cart with that array is the
saved cart itself: same length, same order, same id, name, price and quantity
at each position. -/
theorem save_load_roundtrip (s : State) :
    loadCart (saveCart s).localStorage = .ok (cartToJs s.shoppingCart) ∧
    ∀ cart, loadCart (saveCart s).localStorage = .ok (cartToJs cart) →
      cart = s.shoppingCart ∧ cart.length = s.shoppingCart.length ∧
      ∀ i, cart.get? i = s.shoppingCart.get? i := by
  have h : loadCart (saveCart s).localStorage = .ok (cartToJs s.shoppingCart) := by
    rw [saveCart_storage]
    exact loadCart_saved _
  refine ⟨h, fun cart hc => ?_⟩
  rw [h] at hc
  injection hc with hjs
  have heq := cartToJs_injective _ _ hjs
  subst heq
  exact ⟨rfl, rfl, fun _ => rfl⟩

/-- C8, counterexample: a stored text that is not valid JSON (no reading of
it as a JSON value succeeds, whatever the bound on the nesting) makes the
start-up load raise a `SyntaxError`, and a stored number loads as that number,
which is no sequence of line items. -/
theorem loadCart_raises :
    (∀ fuel, parseValue fuel "oops".data = none) ∧
    loadCart (some "oops") = .error .syntaxError ∧
    (¬ ∃ cart, loadCart (some "oops") = .ok (cartToJs cart)) ∧
    loadCart (some "7") = .ok (.num (Decimal.ofInt 7)) ∧
    (¬ ∃ cart, loadCart (some "7") = .ok (cartToJs cart)) := by
  have h1 : loadCart (some "oops") = .error .syntaxError := by rfl
  have h2 : loadCart (some "7") = .ok (.num (Decimal.ofInt 7)) := by rfl
  refine ⟨fun fuel => by cases fuel <;> rfl, h1, ?_, h2, ?_⟩
  · rintro ⟨cart, hc⟩
    rw [h1] at hc
    cases hc
  · rintro ⟨cart, hc⟩
    rw [h2] at hc
    injection hc with hjs
    simp [cartToJs] at hjs

/-- C8, amended: with no stored value the start-up load returns the empty
sequence, with a serialized cart it returns that cart, neither raising an
error (a stored `null` gives the empty sequence as well); an error of
`JSON.parse` on the stored text is raised by the load. -/
theorem loadCart_cases (cart : List LineItem) (text : String) (e : JsError) :
    loadCart none = .ok (cartToJs []) ∧
    loadCart (some (JSON.stringify (cartToJs cart))) = .ok (cartToJs cart) ∧
    loadCart (some "null") = .ok (cartToJs []) ∧
    (JSON.parse text = .error e → loadCart (some text) = .error e) :=
  ⟨loadCart_absent, loadCart_saved cart, by rfl, loadCart_error text e⟩

end AmiozWorld
